import Mathlib

/-!
Verification of the EFG canonical-orientation extractor
(`ORCA_NBO_parsers/extract_EFG_hydrides.py`).

The Python source is shallowly embedded: each line of an input file is a
`List Char`, the regex searches used by the source are implemented directly
over character lists, Python floats parsed from decimal tokens are modelled
as exact rationals, and the eigendecomposition performed by `np.linalg.eigh`
(an external library call) is modelled by its documented contract: ascending
real eigenvalues together with orthonormal eigenvector columns.
-/

namespace EFG

attribute [local semireducible] Rat.add Rat.mul Rat.sub Rat.inv

/-- Python whitespace class `\s` restricted to ASCII, as matched by `re`. -/
def isPyWs (c : Char) : Bool :=
  c = ' ' || c = '\t' || c = '\n' || c = '\r' || c = '\x0b' || c = '\x0c'

/-- Value of a digit string, as computed by Python `int` on a `\d+` group. -/
def digitsToNat (ds : List Char) : Nat :=
  ds.foldl (fun a c => 10 * a + (c.toNat - 48)) 0

/-- Substring test: Python's `pat in line` for strings. -/
def hasSub (pat : List Char) : List Char → Bool
  | [] => pat.isEmpty
  | c :: t => pat.isPrefixOf (c :: t) || hasSub pat t

/-- The literal `Nucleus` prefix of the nucleus marker regex. -/
def nucleusLit : List Char := "Nucleus".toList

/-- The literal substring that opens a tensor block in the source. -/
def rawMarkerLit : List Char := "Raw EFG matrix".toList

/-- Attempt to match the regex `Nucleus\s+(\d+)H` at the start of `s`,
returning the integer value of the digit group.  The character classes
`\s`, `\d` and the literals are pairwise disjoint, so greedy matching with
backtracking degenerates to taking maximal runs. -/
def matchNucleusAt (s : List Char) : Option Nat :=
  if nucleusLit.isPrefixOf s then
    let r0 := s.drop nucleusLit.length
    let ws := r0.takeWhile isPyWs
    let r1 := r0.dropWhile isPyWs
    let ds := r1.takeWhile Char.isDigit
    let r2 := r1.dropWhile Char.isDigit
    if ws.isEmpty || ds.isEmpty || decide (r2.head? ≠ some 'H') then none
    else some (digitsToNat ds)
  else none

/-- `re.search(r'Nucleus\s+(\d+)H', line)`: leftmost match wins. -/
def searchNucleus : List Char → Option Nat
  | [] => none
  | c :: t =>
    match matchNucleusAt (c :: t) with
    | some n => some n
    | none => searchNucleus t

/-- Match `\d+\.\d+` at the start of `r0`; `sgn` is the already consumed
optional sign.  Returns the full matched token and the rest of the line. -/
def matchFloatCore (sgn r0 : List Char) : Option (List Char × List Char) :=
  let d1 := r0.takeWhile Char.isDigit
  let r1 := r0.dropWhile Char.isDigit
  let r2 := r1.tail
  let d2 := r2.takeWhile Char.isDigit
  if d1.isEmpty || decide (r1.head? ≠ some '.') || d2.isEmpty then none
  else some (sgn ++ d1 ++ ('.' :: d2), r2.dropWhile Char.isDigit)

/-- Attempt to match the float regex `[-]?\d+\.\d+` at the start of `s`. -/
def matchFloatAt (s : List Char) : Option (List Char × List Char) :=
  if s.head? = some '-' then matchFloatCore ['-'] s.tail
  else matchFloatCore [] s

/-- Fuelled scanner for `re.findall(r'([-]?\d+\.\d+)', line)`: collect the
leftmost, non-overlapping float tokens, scanning left to right.  The fuel
only bounds the recursion depth (each step strictly shortens the input, so
`s.length` fuel is always enough); structural recursion on it keeps the
definition kernel-reducible. -/
def findFloatTokensF (fuel : Nat) (s : List Char) : List (List Char) :=
  match fuel, s with
  | 0, _ => []
  | _ + 1, [] => []
  | fuel + 1, c :: t =>
    match matchFloatAt (c :: t) with
    | some p => p.1 :: findFloatTokensF fuel p.2
    | none => findFloatTokensF fuel t

/-- `re.findall(r'([-]?\d+\.\d+)', line)`. -/
def findFloatTokens (s : List Char) : List (List Char) :=
  findFloatTokensF s.length s

/-- Exact rational value of a decimal token of the shape `[-]?\d+\.\d+`,
modelling Python's `float` on exactly the strings produced by the float
regex (`none` on any other string). -/
def parseFloatQ (t : List Char) : Option ℚ :=
  let sgn : Bool := t.head? = some '-'
  let r0 := if sgn then t.tail else t
  let d1 := r0.takeWhile Char.isDigit
  let r1 := r0.dropWhile Char.isDigit
  let d2 := r1.tail.takeWhile Char.isDigit
  if d1.isEmpty || decide (r1.head? ≠ some '.') || d2.isEmpty
      || decide (r1.tail.dropWhile Char.isDigit ≠ []) then none
  else
    some ((if sgn then -1 else 1) *
      ((digitsToNat d1 : ℚ) + (digitsToNat d2 : ℚ) / 10 ^ d2.length))

/-- The numeric row extracted from one line: the parsed values of the float
tokens found on the line (`[float(v) for v in values_match]`). -/
def lineVals (l : List Char) : List ℚ :=
  (findFloatTokens l).map (fun t => (parseFloatQ t).getD 0)

/-- The mutable locals of the `extract_raw_efg_matrices` loop, plus the
dictionary built so far (modelled by its lookup function, which matches the
only way the source reads it back: `dict.get`). -/
structure LocState where
  current : Option Nat
  efgSection : Bool
  matrixLines : List (List ℚ)
  table : ℤ → Option (List (List ℚ))

/-- The initial state of the loop in `extract_raw_efg_matrices`. -/
def initLoc : LocState :=
  { current := none, efgSection := false, matrixLines := [], table := fun _ => none }

/-- One iteration of the `for line in content` loop of
`extract_raw_efg_matrices`, mirroring the source statement by statement. -/
def locStep (st : LocState) (line : List Char) : LocState :=
  let st1 :=
    match searchNucleus line with
    | some n =>
      if st.efgSection then
        { st with current := some n, efgSection := false, matrixLines := [] }
      else
        { st with current := some n }
    | none => st
  if st1.current.isSome && hasSub rawMarkerLit line then
    { st1 with efgSection := true, matrixLines := [] }
  else if st1.efgSection && decide (st1.matrixLines.length < 3) then
    let ml := if (findFloatTokens line).length = 3
              then st1.matrixLines ++ [lineVals line]
              else st1.matrixLines
    if ml.length = 3 then
      { current := none, efgSection := false, matrixLines := [],
        table := fun k => if k = ((st1.current.getD 0 : Nat) : ℤ)
                          then some ml else st1.table k }
    else
      { st1 with matrixLines := ml }
  else st1

/-- `extract_raw_efg_matrices`: fold the per-line step over the file's
lines and return the final dictionary (as its lookup function over integer
keys, matching the `.get` lookups performed by the callers). -/
def extract_raw_efg_matrices (content : List (List Char)) : ℤ → Option (List (List ℚ)) :=
  (content.foldl locStep initLoc).table

/-- Python's `s.split(c)` for a single-character separator, on char lists. -/
def splitCharList (c : Char) : List Char → List (List Char)
  | [] => [[]]
  | x :: t =>
    match splitCharList c t with
    | [] => [[]]
    | h :: r => if x = c then [] :: h :: r else (x :: h) :: r

/-- Python's `s.split(c)` for a single-character separator, on strings. -/
def pySplit (c : Char) (s : String) : List String :=
  (splitCharList c s.toList).map List.asString

/-- Python's `sep.join(parts)`. -/
def pyJoin (sep : String) : List String → String
  | [] => ""
  | h :: t => t.foldl (fun acc x => acc ++ sep ++ x) h

/-- Python's `int(s)`: optional surrounding whitespace, optional sign, at
least one digit; any other string raises, modelled by `none`. -/
def pyIntOpt (s : String) : Option ℤ :=
  let t := ((s.toList.dropWhile isPyWs).reverse.dropWhile isPyWs).reverse
  let sgn : ℤ := if t.head? = some '-' then -1 else 1
  let r := if t.head? = some '-' || t.head? = some '+' then t.tail else t
  if r.isEmpty || !(r.all Char.isDigit) then none
  else some (sgn * (digitsToNat r : ℤ))

/-- Total wrapper for `int(s)` used by the embedded drivers; claims about
the drivers carry hypotheses ruling the `none` case out, since in Python a
failing `int` aborts the whole run. -/
def pyInt (s : String) : ℤ :=
  (pyIntOpt s).getD 0

/-- Fuelled version of Python's `s.replace(pat, rep)` for a nonempty
`pat`: replace leftmost non-overlapping occurrences.  As with
`findFloatTokensF`, `s.length` fuel always suffices. -/
def replaceSubF (pat rep : List Char) (fuel : Nat) (s : List Char) : List Char :=
  match fuel, s with
  | 0, s => s
  | _ + 1, [] => []
  | fuel + 1, c :: t =>
    if pat.isPrefixOf (c :: t) then
      rep ++ replaceSubF pat rep fuel ((c :: t).drop pat.length)
    else
      c :: replaceSubF pat rep fuel t

/-- Python's `s.replace(pat, rep)` for a nonempty `pat`. -/
def replaceSub (pat rep s : List Char) : List Char :=
  replaceSubF pat rep s.length s

/-- The ORCA output filename derived from a row's `.xyz` filename:
`filename.replace('.xyz', '_input.inp.out')`. -/
def orcaFileName (f : String) : String :=
  (replaceSub ".xyz".toList "_input.inp.out".toList f.toList).asString

/-- A 3-vector over an ordered field (exact model of a numpy length-3
float array). -/
structure Vec3 (K : Type) where
  x : K
  y : K
  z : K
deriving DecidableEq

/-- `np.dot` on 3-vectors. -/
def dot {K : Type} [LinearOrderedField K] (a b : Vec3 K) : K :=
  a.x * b.x + a.y * b.y + a.z * b.z

/-- `np.cross` on 3-vectors. -/
def cross {K : Type} [LinearOrderedField K] (a b : Vec3 K) : Vec3 K :=
  ⟨a.y * b.z - a.z * b.y, a.z * b.x - a.x * b.z, a.x * b.y - a.y * b.x⟩

/-- Negation of a 3-vector (`-y_axis`). -/
def negV {K : Type} [LinearOrderedField K] (a : Vec3 K) : Vec3 K :=
  ⟨-a.x, -a.y, -a.z⟩

/-- Scalar multiple of a 3-vector. -/
def smulV {K : Type} [LinearOrderedField K] (c : K) (a : Vec3 K) : Vec3 K :=
  ⟨c * a.x, c * a.y, c * a.z⟩

/-- A 3×3 matrix given by its three rows. -/
structure Mat3 (K : Type) where
  r0 : Vec3 K
  r1 : Vec3 K
  r2 : Vec3 K
deriving DecidableEq

/-- Matrix–vector product. -/
def mulVec {K : Type} [LinearOrderedField K] (A : Mat3 K) (v : Vec3 K) : Vec3 K :=
  ⟨dot A.r0 v, dot A.r1 v, dot A.r2 v⟩

/-- The diagonal matrix `diag(a, b, c)`. -/
def diagM {K : Type} [LinearOrderedField K] (a b c : K) : Mat3 K :=
  ⟨⟨a, 0, 0⟩, ⟨0, b, 0⟩, ⟨0, 0, c⟩⟩

/-- The output of `np.linalg.eigh` on a symmetric 3×3 matrix: eigenvalues
`l0 ≤ l1 ≤ l2` with the corresponding eigenvector columns
`eigvecs[:, 0], eigvecs[:, 1], eigvecs[:, 2]`. -/
structure Eigh (K : Type) where
  l0 : K
  l1 : K
  l2 : K
  c0 : Vec3 K
  c1 : Vec3 K
  c2 : Vec3 K
deriving DecidableEq

/-- The documented contract of `np.linalg.eigh A`: eigenvalues in ascending
order, orthonormal eigenvector columns, each column an eigenvector of `A`
for its eigenvalue.  (Nothing constrains the signs of the columns, so both
right- and left-handed column triples satisfy the contract, and both occur
in practice.) -/
def EighSpec {K : Type} [LinearOrderedField K] (A : Mat3 K) (e : Eigh K) : Prop :=
  e.l0 ≤ e.l1 ∧ e.l1 ≤ e.l2 ∧
  dot e.c0 e.c0 = 1 ∧ dot e.c1 e.c1 = 1 ∧ dot e.c2 e.c2 = 1 ∧
  dot e.c0 e.c1 = 0 ∧ dot e.c0 e.c2 = 0 ∧ dot e.c1 e.c2 = 0 ∧
  mulVec A e.c0 = smulV e.l0 e.c0 ∧
  mulVec A e.c1 = smulV e.l1 e.c1 ∧
  mulVec A e.c2 = smulV e.l2 e.c2

/-- `np.argmax(np.abs(eigvals))`: index of the first eigenvalue of maximal
absolute value. -/
def absMaxIdx {K : Type} [LinearOrderedField K] (a b c : K) : Nat :=
  if |a| < |b| ∨ |a| < |c| then (if |b| < |c| then 2 else 1) else 0

/-- `eigvecs[:, i]`. -/
def pickCol {K : Type} (e : Eigh K) : Nat → Vec3 K
  | 0 => e.c0
  | 1 => e.c1
  | _ => e.c2

/-- `eigvals[i]`. -/
def pickEig {K : Type} (e : Eigh K) : Nat → K
  | 0 => e.l0
  | 1 => e.l1
  | _ => e.l2

/-- `[i for i in range(3) if i != max_abs_idx][0]`. -/
def otherLo : Nat → Nat
  | 0 => 1
  | _ => 0

/-- `[i for i in range(3) if i != max_abs_idx][1]`. -/
def otherHi : Nat → Nat
  | 2 => 1
  | _ => 2

/-- The orientation dictionary `{'X': ..., 'Y': ..., 'Z': ...}` returned by
`get_canonical_orientation` on a non-`None` matrix. -/
structure Orientation (K : Type) where
  X : Vec3 K
  Y : Vec3 K
  Z : Vec3 K
deriving DecidableEq

/-- Steps 2–5 of `get_canonical_orientation`: pick the eigenvector of the
first eigenvalue of maximal absolute value as `Z`, let `v1`, `v2` be the
remaining columns in original index order, set `X = v1`, `Y = Z × X`, and
negate `Y` when `Y · v2 < 0`. -/
def canonicalFromDecomp {K : Type} [LinearOrderedField K] (e : Eigh K) : Orientation K :=
  let maxAbs := absMaxIdx e.l0 e.l1 e.l2
  let zAxis := pickCol e maxAbs
  let v1 := pickCol e (otherLo maxAbs)
  let v2 := pickCol e (otherHi maxAbs)
  let xAxis := v1
  let yAxis := cross zAxis xAxis
  let yAxis := if dot yAxis v2 < 0 then negV yAxis else yAxis
  { X := xAxis, Y := yAxis, Z := zAxis }

/-- `get_canonical_orientation`: `None` input yields the empty dictionary
(modelled as `none`); otherwise the matrix is diagonalized by the
eigensolver `eigh` and post-processed by `canonicalFromDecomp`. -/
def get_canonical_orientation {K : Type} [LinearOrderedField K]
    (raw : Option (Mat3 K)) (eigh : Mat3 K → Eigh K) : Option (Orientation K) :=
  match raw with
  | none => none
  | some A => some (canonicalFromDecomp (eigh A))

/-- `format_orientation_output`, parametrized by the `%.6f` float formatter
(floating-point decimal rendering is not modelled; the claims checked here
only depend on the surrounding string structure). -/
def format_orientation_output {K : Type} (fmt : K → String) :
    Option (Orientation K) → String
  | none => "N/A"
  | some o =>
    "X(" ++ fmt o.X.x ++ "," ++ fmt o.X.y ++ "," ++ fmt o.X.z ++ ");" ++
    "Y(" ++ fmt o.Y.x ++ "," ++ fmt o.Y.y ++ "," ++ fmt o.Y.z ++ ");" ++
    "Z(" ++ fmt o.Z.x ++ "," ++ fmt o.Z.y ++ "," ++ fmt o.Z.z ++ ")"

/-- `np.array(efg_matrix_lines)` reshaped into the `Mat3` row-major form
(the locator only ever stores lists of exactly three rows of three). -/
def listToMat (m : List (List ℚ)) : Mat3 ℚ :=
  let row := fun (r : List ℚ) => Vec3.mk (r.getD 0 0) (r.getD 1 0) (r.getD 2 0)
  ⟨row (m.getD 0 []), row (m.getD 1 []), row (m.getD 2 [])⟩

/-- The per-index body of the inner loop of
`process_hydride_orientations_csv`: look the index up in the raw-matrix
dictionary (unshifted), resolve the orientation, format. -/
def orientPiece (tbl : ℤ → Option (List (List ℚ))) (eigh : Mat3 ℚ → Eigh ℚ)
    (fmt : ℚ → String) (i : ℤ) : String :=
  format_orientation_output fmt
    (get_canonical_orientation ((tbl i).map listToMat) eigh)

/-- The per-index body of the inner loop of `process_hydride_csv` (the
`e**2qQ`-only arm; the `(e**2qQ, eta)` arm performs the same
`efg_map.get(i-1)` lookup): note the off-by-one shift of the key. -/
def eqQPiece (efgMap : ℤ → Option (ℚ × ℚ)) (fmt : ℚ → String) (i : ℤ) : String :=
  match efgMap (i - 1) with
  | some val => fmt val.1
  | none => "N/A"

/-- `';' in s`. -/
def containsChar (c : Char) (s : String) : Bool :=
  s.toList.contains c

/-- The per-cell body of `process_hydride_orientations_csv`: detect the
group separator (`;` when present, else `,`), split into entries, skip
empty entries, split each entry on `,`, parse the indices with `int`, map
each index to its formatted orientation, re-join with the same
separators. -/
def transformCell (tbl : ℤ → Option (List (List ℚ))) (eigh : Mat3 ℚ → Eigh ℚ)
    (fmt : ℚ → String) (s : String) : String :=
  let sep : Char := if containsChar ';' s then ';' else ','
  let entries := pySplit sep s
  let results := (entries.filter (fun e => e ≠ "")).map (fun entry =>
    let idxs := (pySplit ',' entry).map pyInt
    pyJoin "," (idxs.map (fun i => orientPiece tbl eigh fmt i)))
  pyJoin (String.mk [sep]) results

/-- `[col for col in input_data.columns if 'Hydrides' in col]`. -/
def hydrideColsOf (cols : List String) : List String :=
  cols.filter (fun c => hasSub "Hydrides".toList c.toList)

/-- Reading `row[name]` in a positionally modelled data frame: the cell at
the index of the first column called `name` (`none` both for a `NaN` cell
and for a missing column). -/
def getColCell (cols : List String) (row : List (Option String)) (name : String) :
    Option String :=
  match cols.findIdx? (fun c => c = name) with
  | some j => row.getD j none
  | none => none

/-- The inner `for col in hydride_cols` loop of
`process_hydride_orientations_csv` for one row: writes each computed cell
into the output row at the position of the corresponding freshly appended
`..._orientations` column (position `pos`), skipping `NaN` cells. -/
def setHydrideCells (cols : List String) (inRow : List (Option String))
    (tbl : ℤ → Option (List (List ℚ))) (eigh : Mat3 ℚ → Eigh ℚ) (fmt : ℚ → String) :
    Nat → List String → List (Option String) → List (Option String)
  | _, [], acc => acc
  | pos, c :: cs, acc =>
    let acc' := match getColCell cols inRow c with
      | none => acc
      | some s => acc.set pos (some (transformCell tbl eigh fmt s))
    setHydrideCells cols inRow tbl eigh fmt (pos + 1) cs acc'

/-- The body of the `for idx, row in input_data.iterrows()` loop for one
row: skip the row when `Filename` is `NaN` or the ORCA file is absent,
otherwise extract the matrices once and fill every hydride column's
orientation cell. -/
def processOneRow (cols : List String) (hcols : List String)
    (fileFound : String → Bool) (fileLines : String → List (List Char))
    (eigh : Mat3 ℚ → Eigh ℚ) (fmt : ℚ → String)
    (inRow outRow : List (Option String)) : List (Option String) :=
  match getColCell cols inRow "Filename" with
  | none => outRow
  | some f =>
    if fileFound (orcaFileName f) then
      let tbl := extract_raw_efg_matrices (fileLines (orcaFileName f))
      setHydrideCells cols inRow tbl eigh fmt cols.length hcols outRow
    else outRow

/-- `process_hydride_orientations_csv` on an in-memory table: the data
frame is a column-name list plus rows of optional cells (`none` = `NaN`);
`output_data = input_data.copy()` followed by creating one empty
`..._orientations` column per hydride column, then the row loop.  File
system access is abstracted into `fileFound` / `fileLines`. -/
def process_hydride_orientations_csv (cols : List String)
    (rows : List (List (Option String)))
    (fileFound : String → Bool) (fileLines : String → List (List Char))
    (eigh : Mat3 ℚ → Eigh ℚ) (fmt : ℚ → String) :
    List String × List (List (Option String)) :=
  let hcols := hydrideColsOf cols
  let outCols := cols ++ hcols.map (fun c => c ++ "_orientations")
  let outRows := rows.map (fun r =>
    processOneRow cols hcols fileFound fileLines eigh fmt r
      (r ++ hcols.map (fun _ => some "")))
  (outCols, outRows)

/-- Modelled from the claim's wording (spec §4.3 steps 3–5): after `Z` is
selected, `X` is the remaining eigenvector of lower original index, `Y` is
`Z × X`, negated exactly when `Y · v2 < 0` (`v2` the remaining eigenvector
of higher original index), and no renormalization or reordering is applied.
Stated independently of `canonicalFromDecomp` so the two can be compared. -/
def claimedAxisAssignment {K : Type} [LinearOrderedField K] (e : Eigh K) : Orientation K :=
  let i := absMaxIdx e.l0 e.l1 e.l2
  let z := pickCol e i
  let v1 := pickCol e (otherLo i)
  let v2 := pickCol e (otherHi i)
  { X := v1
    Y := if 0 ≤ dot v2 (cross z v1) then cross z v1 else negV (cross z v1)
    Z := z }

/-- A concrete valid `eigh` output for `diag(1, 2, 3)` whose eigenvector
columns form a left-handed triple (the third column is negated, which the
`eigh` contract permits and LAPACK routinely produces). -/
def eighLeftHanded : Eigh ℚ :=
  ⟨1, 2, 3, ⟨1, 0, 0⟩, ⟨0, 1, 0⟩, ⟨0, 0, -1⟩⟩

/-- A concrete valid `eigh` output for `diag(1, -5, 3)`. -/
def eighDiagExample : Eigh ℚ :=
  ⟨-5, 1, 3, ⟨0, 1, 0⟩, ⟨1, 0, 0⟩, ⟨0, 0, 1⟩⟩

/-- Number of lines in `L` carrying exactly 3 float tokens. -/
def count3 (L : List (List Char)) : Nat :=
  (L.filter (fun l => (findFloatTokens l).length == 3)).length

/-- `dot` is symmetric. -/
theorem dot_comm {K : Type} [LinearOrderedField K] (a b : Vec3 K) :
    dot a b = dot b a := by
  unfold dot; ring

/-- C1 (refuted; the code contradicts its own docstring): the input
`eighLeftHanded` is a valid symmetric-eigensolver output for
`diag(1, 2, 3)` (ascending distinct eigenvalues, also distinct in absolute
value, orthonormal columns), yet the Orientation Resolver, whose
handedness-correction step negates `Y` on this input, returns a frame that
is exactly orthonormal but *left*-handed: `Z·(X×Y) = -1`, not `≈ +1`. -/
theorem C1_right_handedness_fails_when_Y_negated :
    EighSpec (diagM 1 2 3) eighLeftHanded ∧
    (|eighLeftHanded.l0| ≠ |eighLeftHanded.l1| ∧
     |eighLeftHanded.l0| ≠ |eighLeftHanded.l2| ∧
     |eighLeftHanded.l1| ≠ |eighLeftHanded.l2|) ∧
    (canonicalFromDecomp eighLeftHanded).Y =
      negV (cross (canonicalFromDecomp eighLeftHanded).Z
                  (canonicalFromDecomp eighLeftHanded).X) ∧
    dot (canonicalFromDecomp eighLeftHanded).X (canonicalFromDecomp eighLeftHanded).X = 1 ∧
    dot (canonicalFromDecomp eighLeftHanded).Y (canonicalFromDecomp eighLeftHanded).Y = 1 ∧
    dot (canonicalFromDecomp eighLeftHanded).Z (canonicalFromDecomp eighLeftHanded).Z = 1 ∧
    dot (canonicalFromDecomp eighLeftHanded).X (canonicalFromDecomp eighLeftHanded).Y = 0 ∧
    dot (canonicalFromDecomp eighLeftHanded).Y (canonicalFromDecomp eighLeftHanded).Z = 0 ∧
    dot (canonicalFromDecomp eighLeftHanded).X (canonicalFromDecomp eighLeftHanded).Z = 0 ∧
    dot (canonicalFromDecomp eighLeftHanded).Z
      (cross (canonicalFromDecomp eighLeftHanded).X
             (canonicalFromDecomp eighLeftHanded).Y) = -1 := by
  unfold EighSpec
  decide

/-- C3 (confirmed): for every eigensolver output, the resolver assigns the
axes exactly as described: `X` is the remaining eigenvector of lower
original index, `Y` is `Z × X` negated precisely when `Y·v2 < 0`, `Z` is
the selected eigenvector, and nothing else is renormalized or reordered
(full structural equality with the claim-side description). -/
theorem C3_axis_assignment {K : Type} [LinearOrderedField K] (e : Eigh K) :
    canonicalFromDecomp e = claimedAxisAssignment e := by
  unfold canonicalFromDecomp claimedAxisAssignment
  dsimp only
  simp only [Orientation.mk.injEq]
  refine ⟨trivial, ?_, trivial⟩
  rw [dot_comm]
  split_ifs with h1 h2 h3
  · linarith
  · rfl
  · rfl
  · linarith

/-- Componentwise form of multiplication by a diagonal matrix. -/
theorem mulVec_diagM {K : Type} [LinearOrderedField K] (a b c : K) (v : Vec3 K) :
    mulVec (diagM a b c) v = ⟨a * v.x, b * v.y, c * v.z⟩ := by
  unfold mulVec diagM dot
  rw [Vec3.mk.injEq]
  refine ⟨by ring, by ring, by ring⟩

/-- Under the eigensolver contract, every column is an eigenvector for the
eigenvalue of the same index. -/
theorem eighSpec_eigen_eq {K : Type} [LinearOrderedField K] {A : Mat3 K} {e : Eigh K}
    (h : EighSpec A e) (j : Nat) :
    mulVec A (pickCol e j) = smulV (pickEig e j) (pickCol e j) := by
  obtain ⟨-, -, -, -, -, -, -, -, h0, h1, h2⟩ := h
  cases j with
  | zero => exact h0
  | succ j =>
    cases j with
    | zero => exact h1
    | succ j => exact h2

/-- A unit eigenvector of `diag(1, -5, 3)` has eigenvalue 1, -5 or 3. -/
theorem eig_of_diag {K : Type} [LinearOrderedField K] {v : Vec3 K} {l : K}
    (hunit : dot v v = 1)
    (heig : mulVec (diagM (1 : K) (-5) 3) v = smulV l v) :
    l = 1 ∨ l = -5 ∨ l = 3 := by
  by_contra hcon
  push_neg at hcon
  obtain ⟨h1, h2, h3⟩ := hcon
  rw [mulVec_diagM] at heig
  unfold smulV at heig
  rw [Vec3.mk.injEq] at heig
  obtain ⟨e1, e2, e3⟩ := heig
  have hx : v.x = 0 := by
    have hz : (1 - l) * v.x = 0 := by linear_combination e1
    rcases mul_eq_zero.mp hz with h | h
    · exact absurd (by linarith) h1
    · exact h
  have hy : v.y = 0 := by
    have hz : (-5 - l) * v.y = 0 := by linear_combination e2
    rcases mul_eq_zero.mp hz with h | h
    · exact absurd (by linarith) h2
    · exact h
  have hzz : v.z = 0 := by
    have hz : (3 - l) * v.z = 0 := by linear_combination e3
    rcases mul_eq_zero.mp hz with h | h
    · exact absurd (by linarith) h3
    · exact h
  have : (0 : K) = 1 := by
    rw [← hunit]; unfold dot; rw [hx, hy, hzz]; ring
  exact one_ne_zero this.symm

/-- Two unit vectors supported on the same coordinate axis cannot be
orthogonal. -/
theorem unit_orth_same_axis {K : Type} [LinearOrderedField K] {a b : K}
    (ha : a * a = 1) (hb : b * b = 1) (hab : a * b = 0) : False := by
  rcases mul_eq_zero.mp hab with h | h
  · rw [h, zero_mul] at ha; exact zero_ne_one ha
  · rw [h, mul_zero] at hb; exact zero_ne_one hb

/-- Distinct-index eigenvalues of `diag(1, -5, 3)` under the eigensolver
contract are distinct: orthogonal unit eigenvectors cannot share an
eigenvalue of this matrix. -/
theorem diag_eig_distinct {K : Type} [LinearOrderedField K] {u v : Vec3 K} {l : K}
    (hu : dot u u = 1) (hv : dot v v = 1) (huv : dot u v = 0)
    (hue : mulVec (diagM (1 : K) (-5) 3) u = smulV l u)
    (hve : mulVec (diagM (1 : K) (-5) 3) v = smulV l v) : False := by
  have hl3 := eig_of_diag hu hue
  rw [mulVec_diagM] at hue hve
  unfold smulV at hue hve
  rw [Vec3.mk.injEq] at hue hve
  obtain ⟨u1, u2, u3⟩ := hue
  obtain ⟨v1, v2, v3⟩ := hve
  rcases hl3 with hl | hl | hl
  · -- l = 1: both eigenvectors lie on the x axis
    subst hl
    have huy : u.y = 0 := by
      have hz : (-6 : K) * u.y = 0 := by linear_combination u2
      rcases mul_eq_zero.mp hz with h | h
      · exact absurd h (by norm_num)
      · exact h
    have huz : u.z = 0 := by
      have hz : (2 : K) * u.z = 0 := by linear_combination u3
      rcases mul_eq_zero.mp hz with h | h
      · exact absurd h (by norm_num)
      · exact h
    have hvy : v.y = 0 := by
      have hz : (-6 : K) * v.y = 0 := by linear_combination v2
      rcases mul_eq_zero.mp hz with h | h
      · exact absurd h (by norm_num)
      · exact h
    have hvz : v.z = 0 := by
      have hz : (2 : K) * v.z = 0 := by linear_combination v3
      rcases mul_eq_zero.mp hz with h | h
      · exact absurd h (by norm_num)
      · exact h
    refine unit_orth_same_axis (a := u.x) (b := v.x) ?_ ?_ ?_
    · unfold dot at hu; rw [huy, huz] at hu; linear_combination hu
    · unfold dot at hv; rw [hvy, hvz] at hv; linear_combination hv
    · unfold dot at huv; rw [huy, huz] at huv; linear_combination huv
  · -- l = -5: both eigenvectors lie on the y axis
    subst hl
    have hux : u.x = 0 := by
      have hz : (6 : K) * u.x = 0 := by linear_combination u1
      rcases mul_eq_zero.mp hz with h | h
      · exact absurd h (by norm_num)
      · exact h
    have huz : u.z = 0 := by
      have hz : (8 : K) * u.z = 0 := by linear_combination u3
      rcases mul_eq_zero.mp hz with h | h
      · exact absurd h (by norm_num)
      · exact h
    have hvx : v.x = 0 := by
      have hz : (6 : K) * v.x = 0 := by linear_combination v1
      rcases mul_eq_zero.mp hz with h | h
      · exact absurd h (by norm_num)
      · exact h
    have hvz : v.z = 0 := by
      have hz : (8 : K) * v.z = 0 := by linear_combination v3
      rcases mul_eq_zero.mp hz with h | h
      · exact absurd h (by norm_num)
      · exact h
    refine unit_orth_same_axis (a := u.y) (b := v.y) ?_ ?_ ?_
    · unfold dot at hu; rw [hux, huz] at hu; linear_combination hu
    · unfold dot at hv; rw [hvx, hvz] at hv; linear_combination hv
    · unfold dot at huv; rw [hux, huz] at huv; linear_combination huv
  · -- l = 3: both eigenvectors lie on the z axis
    subst hl
    have hux : u.x = 0 := by
      have hz : (-2 : K) * u.x = 0 := by linear_combination u1
      rcases mul_eq_zero.mp hz with h | h
      · exact absurd h (by norm_num)
      · exact h
    have huy : u.y = 0 := by
      have hz : (-8 : K) * u.y = 0 := by linear_combination u2
      rcases mul_eq_zero.mp hz with h | h
      · exact absurd h (by norm_num)
      · exact h
    have hvx : v.x = 0 := by
      have hz : (-2 : K) * v.x = 0 := by linear_combination v1
      rcases mul_eq_zero.mp hz with h | h
      · exact absurd h (by norm_num)
      · exact h
    have hvy : v.y = 0 := by
      have hz : (-8 : K) * v.y = 0 := by linear_combination v2
      rcases mul_eq_zero.mp hz with h | h
      · exact absurd h (by norm_num)
      · exact h
    refine unit_orth_same_axis (a := u.z) (b := v.z) ?_ ?_ ?_
    · unfold dot at hu; rw [hux, huy] at hu; linear_combination hu
    · unfold dot at hv; rw [hvx, hvy] at hv; linear_combination hv
    · unfold dot at huv; rw [hux, huy] at huv; linear_combination huv

/-- `absMaxIdx` selects an index of maximal absolute value, and, among
equals, the earliest one (the first-occurrence behaviour of `np.argmax`). -/
theorem absMaxIdx_spec {K : Type} [LinearOrderedField K] (e : Eigh K) :
    (∀ j : Nat, |pickEig e j| ≤ |pickEig e (absMaxIdx e.l0 e.l1 e.l2)|) ∧
    (∀ j : Nat, j < absMaxIdx e.l0 e.l1 e.l2 →
      |pickEig e j| < |pickEig e (absMaxIdx e.l0 e.l1 e.l2)|) := by
  unfold absMaxIdx
  split_ifs with h1 h2
  · constructor
    · intro j
      cases j with
      | zero =>
        show |e.l0| ≤ |e.l2|
        rcases h1 with h | h
        · exact le_of_lt (lt_trans h h2)
        · exact le_of_lt h
      | succ j =>
        cases j with
        | zero => exact le_of_lt h2
        | succ j => exact le_refl _
    · intro j hj
      cases j with
      | zero =>
        show |e.l0| < |e.l2|
        rcases h1 with h | h
        · exact lt_trans h h2
        · exact h
      | succ j =>
        cases j with
        | zero => exact h2
        | succ j => omega
  · have h2' : |e.l2| ≤ |e.l1| := not_lt.mp h2
    constructor
    · intro j
      cases j with
      | zero =>
        show |e.l0| ≤ |e.l1|
        rcases h1 with h | h
        · exact le_of_lt h
        · exact le_of_lt (lt_of_lt_of_le h h2')
      | succ j =>
        cases j with
        | zero => exact le_refl _
        | succ j => exact h2'
    · intro j hj
      cases j with
      | zero =>
        show |e.l0| < |e.l1|
        rcases h1 with h | h
        · exact h
        · exact lt_of_lt_of_le h h2'
      | succ j => omega
  · push_neg at h1
    obtain ⟨hb, hc⟩ := h1
    constructor
    · intro j
      cases j with
      | zero => exact le_refl _
      | succ j =>
        cases j with
        | zero => exact hb
        | succ j => exact hc
    · intro j hj
      omega

/-- C2 (confirmed): the canonical `Z` is always an eigenvector for the
eigenvalue selected by `absMaxIdx`, which has maximal absolute value among
the three eigenvalues, with ties broken in favour of the lowest index of
the solver's ascending output order; and for `diag(1, -5, 3)` the selected
eigenvalue is `-5` and `Z` is `(0, ±1, 0)`, i.e. aligned up to sign with
the eigenvector of eigenvalue `-5`. -/
theorem C2_Z_axis_selection {K : Type} [LinearOrderedField K]
    (A : Mat3 K) (e : Eigh K) (h : EighSpec A e) :
    (mulVec A (canonicalFromDecomp e).Z =
      smulV (pickEig e (absMaxIdx e.l0 e.l1 e.l2)) (canonicalFromDecomp e).Z) ∧
    (∀ j : Nat, |pickEig e j| ≤ |pickEig e (absMaxIdx e.l0 e.l1 e.l2)|) ∧
    (∀ j : Nat, j < absMaxIdx e.l0 e.l1 e.l2 →
      |pickEig e j| < |pickEig e (absMaxIdx e.l0 e.l1 e.l2)|) ∧
    (A = diagM 1 (-5) 3 →
      pickEig e (absMaxIdx e.l0 e.l1 e.l2) = -5 ∧
      (canonicalFromDecomp e).Z.x = 0 ∧
      (canonicalFromDecomp e).Z.z = 0 ∧
      ((canonicalFromDecomp e).Z.y = 1 ∨ (canonicalFromDecomp e).Z.y = -1)) := by
  have hZ : (canonicalFromDecomp e).Z = pickCol e (absMaxIdx e.l0 e.l1 e.l2) := rfl
  refine ⟨by rw [hZ]; exact eighSpec_eigen_eq h _,
          (absMaxIdx_spec e).1, (absMaxIdx_spec e).2, ?_⟩
  intro hA
  subst hA
  obtain ⟨hord1, hord2, hn0, hn1, hn2, ho01, ho02, ho12, he0, he1, he2⟩ := h
  have hd0 := eig_of_diag hn0 he0
  have hd1 := eig_of_diag hn1 he1
  have hd2 := eig_of_diag hn2 he2
  have hne01 : e.l0 ≠ e.l1 := by
    intro hq
    rw [← hq] at he1
    exact diag_eig_distinct hn0 hn1 ho01 he0 he1
  have hne12 : e.l1 ≠ e.l2 := by
    intro hq
    rw [← hq] at he2
    exact diag_eig_distinct hn1 hn2 ho12 he1 he2
  have h01 : e.l0 < e.l1 := lt_of_le_of_ne hord1 hne01
  have h12 : e.l1 < e.l2 := lt_of_le_of_ne hord2 hne12
  have hL : e.l0 = -5 ∧ e.l1 = 1 ∧ e.l2 = 3 := by
    rcases hd0 with q0 | q0 | q0 <;> rcases hd1 with q1 | q1 | q1 <;>
      rcases hd2 with q2 | q2 | q2 <;>
      simp only [q0, q1, q2] at h01 h12 ⊢ <;>
      norm_num at h01 h12 ⊢
  obtain ⟨hL0, hL1, hL2⟩ := hL
  have hidx : absMaxIdx e.l0 e.l1 e.l2 = 0 := by
    have ha : |(-5 : K)| = 5 := by
      rw [abs_neg]; exact abs_of_nonneg (by norm_num)
    have hb : |(1 : K)| = 1 := abs_of_nonneg (by norm_num)
    have hc : |(3 : K)| = 3 := abs_of_nonneg (by norm_num)
    unfold absMaxIdx
    rw [hL0, hL1, hL2, ha, hb, hc]
    rw [if_neg (by norm_num)]
  rw [mulVec_diagM] at he0
  unfold smulV at he0
  rw [Vec3.mk.injEq] at he0
  obtain ⟨f1, f2, f3⟩ := he0
  rw [hL0] at f1 f3
  have hx : e.c0.x = 0 := by
    have h6 : (6 : K) * e.c0.x = 0 := by linear_combination f1
    rcases mul_eq_zero.mp h6 with hq | hq
    · exact absurd hq (by norm_num)
    · exact hq
  have hzc : e.c0.z = 0 := by
    have h8 : (8 : K) * e.c0.z = 0 := by linear_combination f3
    rcases mul_eq_zero.mp h8 with hq | hq
    · exact absurd hq (by norm_num)
    · exact hq
  have hy2 : e.c0.y * e.c0.y = 1 := by
    unfold dot at hn0
    rw [hx, hzc] at hn0
    linear_combination hn0
  refine ⟨by rw [hidx]; exact hL0, ?_, ?_, ?_⟩
  · rw [hZ, hidx]; exact hx
  · rw [hZ, hidx]; exact hzc
  · rw [hZ, hidx]
    show e.c0.y = 1 ∨ e.c0.y = -1
    have hfac : (e.c0.y - 1) * (e.c0.y + 1) = 0 := by linear_combination hy2
    rcases mul_eq_zero.mp hfac with hq | hq
    · left; linarith
    · right; linarith

theorem C2_Z_axis_selection_witness :
    EighSpec (diagM (1 : ℚ) (-5) 3) eighDiagExample ∧
    (pickEig eighDiagExample
       (absMaxIdx eighDiagExample.l0 eighDiagExample.l1 eighDiagExample.l2) = -5 ∧
     (canonicalFromDecomp eighDiagExample).Z.x = 0 ∧
     (canonicalFromDecomp eighDiagExample).Z.z = 0 ∧
     ((canonicalFromDecomp eighDiagExample).Z.y = 1 ∨
      (canonicalFromDecomp eighDiagExample).Z.y = -1)) :=
  ⟨by unfold EighSpec; decide,
   (C2_Z_axis_selection (diagM (1 : ℚ) (-5) 3) eighDiagExample
      (by unfold EighSpec; decide)).2.2.2 rfl⟩

/-- `String.append` acts as list append on the underlying characters. -/
theorem string_data_append (s t : String) : (s ++ t).data = s.data ++ t.data := rfl

/-- A present orientation never formats to the `N/A` sentinel, whatever the
float formatter does: the output always starts with `X(`. -/
theorem format_some_ne_NA {K : Type} (fmt : K → String) (o : Orientation K) :
    format_orientation_output fmt (some o) ≠ "N/A" := by
  intro heq
  unfold format_orientation_output at heq
  have hd := congrArg String.data heq
  simp only [string_data_append, show ("X(" : String).data = ['X', '('] from rfl,
    show ("N/A" : String).data = ['N', '/', 'A'] from rfl,
    List.cons_append, List.nil_append, List.append_assoc] at hd
  injection hd with h1 h2
  exact absurd h1 (by decide)

/-- C5 (confirmed): for a nucleus index absent from the Block Locator's
mapping, the lookup-resolve-format pipeline yields exactly the literal
`N/A` (and, conversely, any present orientation formats to a string that
is never `N/A`, so the sentinel is the only error path).  All functions
involved are total, so no failure can be raised. -/
theorem C5_absent_index_formats_NA (content : List (List Char)) (idx : ℤ)
    (eigh : Mat3 ℚ → Eigh ℚ) (fmt : ℚ → String)
    (h : extract_raw_efg_matrices content idx = none) :
    format_orientation_output fmt
      (get_canonical_orientation
        ((extract_raw_efg_matrices content idx).map listToMat) eigh) = "N/A"
    ∧ ∀ o : Orientation ℚ, format_orientation_output fmt (some o) ≠ "N/A" := by
  refine ⟨?_, fun o => format_some_ne_NA fmt o⟩
  rw [h]
  rfl

theorem C5_absent_index_formats_NA_witness :
    extract_raw_efg_matrices [] 0 = none ∧
    format_orientation_output (fun _ => "")
      (get_canonical_orientation
        ((extract_raw_efg_matrices [] 0).map listToMat)
        (fun _ => ⟨0, 0, 0, ⟨0, 0, 0⟩, ⟨0, 0, 0⟩, ⟨0, 0, 0⟩⟩)) = "N/A" :=
  ⟨rfl,
   (C5_absent_index_formats_NA [] 0
      (fun _ => ⟨0, 0, 0, ⟨0, 0, 0⟩, ⟨0, 0, 0⟩, ⟨0, 0, 0⟩⟩)
      (fun _ => "") rfl).1⟩

/-- C8 (confirmed): the sibling extractors consume the same kind of index
with different key conventions.  The per-index resolution of
`process_hydride_csv` depends only on key `i - 1` of its map, while that of
`process_hydride_orientations_csv` depends only on key `i`; each yields
`N/A` exactly when its own key is absent, so on maps with the identical
key set `{0, 1}` the index `2` resolves to data in the first driver and to
`N/A` in the second. -/
theorem C8_lookup_conventions_differ
    (m m' : ℤ → Option (ℚ × ℚ)) (tbl tbl' : ℤ → Option (List (List ℚ)))
    (eigh : Mat3 ℚ → Eigh ℚ) (fmt : ℚ → String) (i : ℤ)
    (hm : m (i - 1) = m' (i - 1)) (ht : tbl i = tbl' i)
    (hfmt : ∀ q : ℚ, fmt q ≠ "N/A") :
    (eqQPiece m fmt i = eqQPiece m' fmt i) ∧
    (orientPiece tbl eigh fmt i = orientPiece tbl' eigh fmt i) ∧
    (eqQPiece m fmt i = "N/A" ↔ m (i - 1) = none) ∧
    (orientPiece tbl eigh fmt i = "N/A" ↔ tbl i = none) ∧
    (eqQPiece (fun k => if k = 0 ∨ k = 1 then some (1, 0) else none) fmt 2 ≠ "N/A" ∧
     orientPiece (fun k => if k = 0 ∨ k = 1 then some [[1, 0, 0], [0, 2, 0], [0, 0, -5]]
                           else none) eigh fmt 2 = "N/A") := by
  refine ⟨?_, ?_, ?_, ?_, ?_, ?_⟩
  · unfold eqQPiece
    rw [hm]
  · unfold orientPiece
    rw [ht]
  · unfold eqQPiece
    cases hq : m (i - 1) with
    | none => exact iff_of_true rfl rfl
    | some val =>
      constructor
      · intro hNA
        exact absurd hNA (hfmt val.1)
      · intro hc
        exact absurd hc (by simp)
  · unfold orientPiece
    cases hq : tbl i with
    | none => exact iff_of_true rfl rfl
    | some m0 =>
      constructor
      · intro hNA
        exact absurd hNA (format_some_ne_NA fmt _)
      · intro hc
        exact absurd hc (by simp)
  · have hkey : (fun (k : ℤ) => if k = 0 ∨ k = 1 then some ((1 : ℚ), (0 : ℚ)) else none)
        (2 - 1) = some (1, 0) := by norm_num
    unfold eqQPiece
    rw [hkey]
    exact hfmt 1
  · have hkey : (fun (k : ℤ) => if k = 0 ∨ k = 1
          then some [[(1 : ℚ), 0, 0], [0, 2, 0], [0, 0, -5]] else none) 2 = none := by
      norm_num
    unfold orientPiece get_canonical_orientation
    rw [hkey]
    rfl

theorem C8_lookup_conventions_differ_witness :
    eqQPiece (fun k => if k = 0 ∨ k = 1 then some (1, 0) else none) (fun _ => "v") 2 ≠ "N/A" ∧
    orientPiece (fun k => if k = 0 ∨ k = 1 then some [[1, 0, 0], [0, 2, 0], [0, 0, -5]]
                          else none)
      (fun _ => ⟨0, 0, 0, ⟨0, 0, 0⟩, ⟨0, 0, 0⟩, ⟨0, 0, 0⟩⟩) (fun _ => "v") 2 = "N/A" :=
  (C8_lookup_conventions_differ
    (fun k => if k = 0 ∨ k = 1 then some (1, 0) else none)
    (fun k => if k = 0 ∨ k = 1 then some (1, 0) else none)
    (fun k => if k = 0 ∨ k = 1 then some [[1, 0, 0], [0, 2, 0], [0, 0, -5]] else none)
    (fun k => if k = 0 ∨ k = 1 then some [[1, 0, 0], [0, 2, 0], [0, 0, -5]] else none)
    (fun _ => ⟨0, 0, 0, ⟨0, 0, 0⟩, ⟨0, 0, 0⟩, ⟨0, 0, 0⟩⟩) (fun _ => "v") 2
    rfl rfl (fun _ => show ("v" : String) ≠ "N/A" by decide)).2.2.2.2

/-- A line that matches no nucleus, contains no raw-matrix marker and does
not carry exactly 3 float tokens leaves the loop state unchanged. -/
theorem locStep_skip (st : LocState) (line : List Char)
    (hn : searchNucleus line = none)
    (hr : hasSub rawMarkerLit line = false)
    (h3 : (findFloatTokens line).length ≠ 3) :
    locStep st line = st := by
  unfold locStep
  rw [hn, hr]
  dsimp only
  rw [Bool.and_false]
  rw [if_neg (by simp)]
  rw [if_neg h3]
  split_ifs with hb h33
  · rw [Bool.and_eq_true] at hb
    have hlt := of_decide_eq_true hb.2
    omega
  · rfl
  · rfl

/-- With no nucleus set and no open section, a line without a nucleus
marker has no effect (raw markers and numeric lines included). -/
theorem locStep_idle (st : LocState) (line : List Char)
    (hc : st.current = none) (hs : st.efgSection = false)
    (hn : searchNucleus line = none) :
    locStep st line = st := by
  unfold locStep
  rw [hn]
  dsimp only
  rw [hc]
  simp only [Option.isSome_none, Bool.false_and]
  rw [if_neg (by simp)]
  rw [hs]
  simp only [Bool.false_and]
  rw [if_neg (by simp)]

/-- Outside a tensor section, a line with neither marker has no effect. -/
theorem locStep_await (st : LocState) (line : List Char)
    (hs : st.efgSection = false)
    (hn : searchNucleus line = none) (hr : hasSub rawMarkerLit line = false) :
    locStep st line = st := by
  unfold locStep
  rw [hn, hr]
  dsimp only
  rw [Bool.and_false]
  rw [if_neg (by simp)]
  rw [hs]
  simp only [Bool.false_and]
  rw [if_neg (by simp)]

/-- A nucleus-marker line (without a raw-matrix marker) always moves the
machine to the fresh awaiting state for that nucleus, abandoning any open
block. -/
theorem locStep_marker (cur : Option Nat) (sec : Bool) (ml : List (List ℚ))
    (tb : ℤ → Option (List (List ℚ))) (line : List Char) (n : Nat)
    (hn : searchNucleus line = some n) (hr : hasSub rawMarkerLit line = false)
    (hml : sec = false → ml = []) :
    locStep ⟨cur, sec, ml, tb⟩ line = ⟨some n, false, [], tb⟩ := by
  cases sec with
  | true =>
    unfold locStep
    rw [hn, hr]
    simp
  | false =>
    rw [hml rfl]
    unfold locStep
    rw [hn, hr]
    simp

/-- A raw-matrix marker line seen while a nucleus is set opens a fresh
tensor section (the `continue` path). -/
theorem locStep_raw (c : Nat) (sec : Bool) (ml : List (List ℚ))
    (tb : ℤ → Option (List (List ℚ))) (line : List Char)
    (hn : searchNucleus line = none) (hr : hasSub rawMarkerLit line = true) :
    locStep ⟨some c, sec, ml, tb⟩ line = ⟨some c, true, [], tb⟩ := by
  unfold locStep
  rw [hn, hr]
  dsimp only
  rw [if_pos (by simp)]

/-- Inside an open section, a 3-float-token line that does not yet complete
the matrix is appended. -/
theorem locStep_collect_append (c : Nat) (ml : List (List ℚ))
    (tb : ℤ → Option (List (List ℚ))) (line : List Char)
    (hn : searchNucleus line = none) (hr : hasSub rawMarkerLit line = false)
    (h3 : (findFloatTokens line).length = 3) (hlen : ml.length + 1 < 3) :
    locStep ⟨some c, true, ml, tb⟩ line = ⟨some c, true, ml ++ [lineVals line], tb⟩ := by
  unfold locStep
  rw [hn, hr]
  dsimp only
  rw [Bool.and_false]
  rw [if_neg (by simp)]
  rw [if_pos (by simp only [Bool.true_and, decide_eq_true_eq]; omega)]
  rw [if_pos h3]
  rw [if_neg (by simp only [List.length_append, List.length_cons, List.length_nil]; omega)]

/-- Inside an open section, the third 3-float-token line completes the
matrix: it is stored for the current nucleus and the state resets. -/
theorem locStep_collect_complete (c : Nat) (ml : List (List ℚ))
    (tb : ℤ → Option (List (List ℚ))) (line : List Char)
    (hn : searchNucleus line = none) (hr : hasSub rawMarkerLit line = false)
    (h3 : (findFloatTokens line).length = 3) (hlen : ml.length = 2) :
    locStep ⟨some c, true, ml, tb⟩ line =
      ⟨none, false, [],
       fun k => if k = (c : ℤ) then some (ml ++ [lineVals line]) else tb k⟩ := by
  unfold locStep
  rw [hn, hr]
  dsimp only
  rw [Bool.and_false]
  rw [if_neg (by simp)]
  rw [if_pos (by simp only [Bool.true_and, decide_eq_true_eq]; omega)]
  rw [if_pos h3]
  rw [if_pos (by simp only [List.length_append, List.length_cons, List.length_nil]; omega)]
  rfl

theorem count3_cons (l : List Char) (L : List (List Char)) :
    count3 (l :: L) =
      (if (findFloatTokens l).length = 3 then 1 else 0) + count3 L := by
  unfold count3
  rw [List.filter_cons]
  split_ifs with hb hp hp
  · simp only [List.length_cons]; omega
  · exact absurd (by simpa using hb) hp
  · exact absurd (beq_iff_eq.mpr hp) (by simpa using hb)
  · simp

/-- An idle machine (no nucleus, no open section) ignores any run of lines
without nucleus markers. -/
theorem foldl_locStep_idle (L : List (List Char)) (st : LocState)
    (hc : st.current = none) (hs : st.efgSection = false)
    (hL : ∀ l ∈ L, searchNucleus l = none) :
    List.foldl locStep st L = st := by
  induction L with
  | nil => rfl
  | cons l L ih =>
    rw [List.foldl_cons, locStep_idle st l hc hs (hL l (by simp))]
    exact ih (fun x hx => hL x (by simp [hx]))

/-- An awaiting machine (section closed) ignores any run of marker-free
lines. -/
theorem foldl_locStep_await (L : List (List Char)) (st : LocState)
    (hs : st.efgSection = false)
    (hL : ∀ l ∈ L, searchNucleus l = none ∧ hasSub rawMarkerLit l = false) :
    List.foldl locStep st L = st := by
  induction L with
  | nil => rfl
  | cons l L ih =>
    rw [List.foldl_cons, locStep_await st l hs (hL l (by simp)).1 (hL l (by simp)).2]
    exact ih (fun x hx => hL x (by simp [hx]))

/-- A collecting machine that sees fewer numeric lines than it needs stays
collecting: the section stays open, no matrix is stored, the table is
untouched. -/
theorem foldl_locStep_partial (L : List (List Char)) (c : Nat)
    (tb : ℤ → Option (List (List ℚ))) :
    ∀ ml : List (List ℚ),
      (∀ l ∈ L, searchNucleus l = none ∧ hasSub rawMarkerLit l = false) →
      ml.length + count3 L < 3 →
      ∃ w : List (List ℚ),
        List.foldl locStep ⟨some c, true, ml, tb⟩ L = ⟨some c, true, w, tb⟩ := by
  induction L with
  | nil =>
    intro ml _ _
    exact ⟨ml, rfl⟩
  | cons l L ih =>
    intro ml hL hcount
    obtain ⟨hn, hr⟩ := hL l (by simp)
    rw [count3_cons] at hcount
    by_cases h3 : (findFloatTokens l).length = 3
    · rw [if_pos h3] at hcount
      rw [List.foldl_cons,
        locStep_collect_append c ml tb l hn hr h3 (by omega)]
      exact ih (ml ++ [lineVals l]) (fun x hx => hL x (by simp [hx]))
        (by simp only [List.length_append, List.length_cons, List.length_nil]; omega)
    · rw [if_neg h3] at hcount
      rw [List.foldl_cons, locStep_skip _ l hn hr h3]
      exact ih ml (fun x hx => hL x (by simp [hx])) (by omega)

/-- C4 (confirmed): in a file whose first nucleus marker is followed by a
raw-matrix marker but fewer than 3 numeric lines before the second nucleus
marker arrives, the in-progress block is abandoned silently: the first
nucleus never reaches the mapping (no partial matrix is emitted), while
the second nucleus's complete 3-line block is recorded in full. -/
theorem C4_incomplete_block_abandoned
    (pre u v u2 post : List (List Char)) (l1 r1 l2 r2 g1 g2 g3 : List Char)
    (n1 n2 : Nat)
    (hpre : ∀ l ∈ pre, searchNucleus l = none)
    (hl1 : searchNucleus l1 = some n1) (hl1r : hasSub rawMarkerLit l1 = false)
    (hu : ∀ l ∈ u, searchNucleus l = none ∧ hasSub rawMarkerLit l = false)
    (hr1n : searchNucleus r1 = none) (hr1 : hasSub rawMarkerLit r1 = true)
    (hv : ∀ l ∈ v, searchNucleus l = none ∧ hasSub rawMarkerLit l = false)
    (hvc : count3 v < 3)
    (hl2 : searchNucleus l2 = some n2) (hl2r : hasSub rawMarkerLit l2 = false)
    (hu2 : ∀ l ∈ u2, searchNucleus l = none ∧ hasSub rawMarkerLit l = false)
    (hr2n : searchNucleus r2 = none) (hr2 : hasSub rawMarkerLit r2 = true)
    (hg : ∀ l ∈ [g1, g2, g3], searchNucleus l = none ∧
            hasSub rawMarkerLit l = false ∧ (findFloatTokens l).length = 3)
    (hpost : ∀ l ∈ post, searchNucleus l = none)
    (hne : n1 ≠ n2) :
    extract_raw_efg_matrices
        (pre ++ [l1] ++ u ++ [r1] ++ v ++ [l2] ++ u2 ++ [r2] ++ [g1, g2, g3] ++ post)
        (n1 : ℤ) = none ∧
    extract_raw_efg_matrices
        (pre ++ [l1] ++ u ++ [r1] ++ v ++ [l2] ++ u2 ++ [r2] ++ [g1, g2, g3] ++ post)
        (n2 : ℤ) = some [lineVals g1, lineVals g2, lineVals g3] := by
  obtain ⟨hg1, hg1r, hg13⟩ := hg g1 (by simp)
  obtain ⟨hg2, hg2r, hg23⟩ := hg g2 (by simp)
  obtain ⟨hg3, hg3r, hg33⟩ := hg g3 (by simp)
  obtain ⟨w, hw⟩ := foldl_locStep_partial v n1 (fun _ => none) [] hv (by simpa using hvc)
  have hstate :
      List.foldl locStep initLoc
        (pre ++ [l1] ++ u ++ [r1] ++ v ++ [l2] ++ u2 ++ [r2] ++ [g1, g2, g3] ++ post) =
      ⟨none, false, [],
       fun k => if k = (n2 : ℤ)
                then some [lineVals g1, lineVals g2, lineVals g3] else none⟩ := by
    rw [List.foldl_append, List.foldl_append, List.foldl_append, List.foldl_append,
      List.foldl_append, List.foldl_append, List.foldl_append, List.foldl_append,
      List.foldl_append]
    rw [foldl_locStep_idle pre initLoc rfl rfl hpre]
    simp only [List.foldl_cons, List.foldl_nil]
    rw [show locStep initLoc l1 = (⟨some n1, false, [], fun _ => none⟩ : LocState) from
      locStep_marker none false [] (fun _ => none) l1 n1 hl1 hl1r (fun _ => rfl)]
    rw [foldl_locStep_await u ⟨some n1, false, [], fun _ => none⟩ rfl hu]
    rw [show locStep ⟨some n1, false, [], fun _ => none⟩ r1 =
        (⟨some n1, true, [], fun _ => none⟩ : LocState) from
      locStep_raw n1 false [] (fun _ => none) r1 hr1n hr1]
    rw [hw]
    rw [show locStep ⟨some n1, true, w, fun _ => none⟩ l2 =
        (⟨some n2, false, [], fun _ => none⟩ : LocState) from
      locStep_marker (some n1) true w (fun _ => none) l2 n2 hl2 hl2r
        (fun h => absurd h (by simp))]
    rw [foldl_locStep_await u2 ⟨some n2, false, [], fun _ => none⟩ rfl hu2]
    rw [show locStep ⟨some n2, false, [], fun _ => none⟩ r2 =
        (⟨some n2, true, [], fun _ => none⟩ : LocState) from
      locStep_raw n2 false [] (fun _ => none) r2 hr2n hr2]
    rw [show locStep ⟨some n2, true, [], fun _ => none⟩ g1 =
        (⟨some n2, true, [lineVals g1], fun _ => none⟩ : LocState) from
      locStep_collect_append n2 [] (fun _ => none) g1 hg1 hg1r hg13 (by simp)]
    rw [show locStep ⟨some n2, true, [lineVals g1], fun _ => none⟩ g2 =
        (⟨some n2, true, [lineVals g1, lineVals g2], fun _ => none⟩ : LocState) from
      locStep_collect_append n2 [lineVals g1] (fun _ => none) g2 hg2 hg2r hg23 (by simp)]
    rw [show locStep ⟨some n2, true, [lineVals g1, lineVals g2], fun _ => none⟩ g3 =
        (⟨none, false, [],
          fun k => if k = (n2 : ℤ)
                   then some [lineVals g1, lineVals g2, lineVals g3] else none⟩ : LocState) from
      locStep_collect_complete n2 [lineVals g1, lineVals g2] (fun _ => none) g3
        hg3 hg3r hg33 rfl]
    exact foldl_locStep_idle post _ rfl rfl hpost
  unfold extract_raw_efg_matrices
  rw [hstate]
  constructor
  · exact if_neg (by exact_mod_cast hne)
  · exact if_pos rfl

theorem C4_incomplete_block_abandoned_witness :
    extract_raw_efg_matrices
      ["Nucleus  1H".toList, " Raw EFG matrix".toList, "1.0 2.0 3.0".toList,
       "Nucleus  12H".toList, " Raw EFG matrix".toList,
       " 1.0 0.0 0.0".toList, " 0.0 2.0 0.0".toList, " 0.0 0.0 -5.0".toList]
      (1 : ℤ) = none ∧
    extract_raw_efg_matrices
      ["Nucleus  1H".toList, " Raw EFG matrix".toList, "1.0 2.0 3.0".toList,
       "Nucleus  12H".toList, " Raw EFG matrix".toList,
       " 1.0 0.0 0.0".toList, " 0.0 2.0 0.0".toList, " 0.0 0.0 -5.0".toList]
      (12 : ℤ) = some [[1, 0, 0], [0, 2, 0], [0, 0, -5]] := by
  have hC4 := C4_incomplete_block_abandoned
    [] [] ["1.0 2.0 3.0".toList] [] []
    "Nucleus  1H".toList " Raw EFG matrix".toList
    "Nucleus  12H".toList " Raw EFG matrix".toList
    " 1.0 0.0 0.0".toList " 0.0 2.0 0.0".toList " 0.0 0.0 -5.0".toList
    1 12
    (by decide) (by decide) (by decide) (by decide) (by decide) (by decide)
    (by decide) (by decide) (by decide) (by decide) (by decide) (by decide)
    (by decide) (by decide) (by decide) (by decide)
  exact ⟨hC4.1, hC4.2.trans (by decide)⟩

/-- C10 (confirmed): when the same nucleus index heads two complete 3-line
tensor blocks, the later block silently overwrites the earlier mapping
entry: the mapping holds the last complete block in file order, and no
error or duplicate record is produced. -/
theorem C10_last_complete_block_wins
    (pre u1 u2 post : List (List Char)) (l1 r1 l2 r2 a1 a2 a3 b1 b2 b3 : List Char)
    (n : Nat)
    (hpre : ∀ l ∈ pre, searchNucleus l = none)
    (hl1 : searchNucleus l1 = some n) (hl1r : hasSub rawMarkerLit l1 = false)
    (hu1 : ∀ l ∈ u1, searchNucleus l = none ∧ hasSub rawMarkerLit l = false)
    (hr1n : searchNucleus r1 = none) (hr1 : hasSub rawMarkerLit r1 = true)
    (ha : ∀ l ∈ [a1, a2, a3], searchNucleus l = none ∧
            hasSub rawMarkerLit l = false ∧ (findFloatTokens l).length = 3)
    (hl2 : searchNucleus l2 = some n) (hl2r : hasSub rawMarkerLit l2 = false)
    (hu2 : ∀ l ∈ u2, searchNucleus l = none ∧ hasSub rawMarkerLit l = false)
    (hr2n : searchNucleus r2 = none) (hr2 : hasSub rawMarkerLit r2 = true)
    (hb : ∀ l ∈ [b1, b2, b3], searchNucleus l = none ∧
            hasSub rawMarkerLit l = false ∧ (findFloatTokens l).length = 3)
    (hpost : ∀ l ∈ post, searchNucleus l = none) :
    extract_raw_efg_matrices
        (pre ++ [l1] ++ u1 ++ [r1] ++ [a1, a2, a3] ++ [l2] ++ u2 ++ [r2] ++
          [b1, b2, b3] ++ post) (n : ℤ)
      = some [lineVals b1, lineVals b2, lineVals b3] := by
  obtain ⟨ha1, ha1r, ha13⟩ := ha a1 (by simp)
  obtain ⟨ha2, ha2r, ha23⟩ := ha a2 (by simp)
  obtain ⟨ha3, ha3r, ha33⟩ := ha a3 (by simp)
  obtain ⟨hb1, hb1r, hb13⟩ := hb b1 (by simp)
  obtain ⟨hb2, hb2r, hb23⟩ := hb b2 (by simp)
  obtain ⟨hb3, hb3r, hb33⟩ := hb b3 (by simp)
  have hstate :
      List.foldl locStep initLoc
        (pre ++ [l1] ++ u1 ++ [r1] ++ [a1, a2, a3] ++ [l2] ++ u2 ++ [r2] ++
          [b1, b2, b3] ++ post) =
      ⟨none, false, [],
       fun k => if k = (n : ℤ) then some [lineVals b1, lineVals b2, lineVals b3]
                else if k = (n : ℤ) then some [lineVals a1, lineVals a2, lineVals a3]
                else none⟩ := by
    rw [List.foldl_append, List.foldl_append, List.foldl_append, List.foldl_append,
      List.foldl_append, List.foldl_append, List.foldl_append, List.foldl_append,
      List.foldl_append]
    rw [foldl_locStep_idle pre initLoc rfl rfl hpre]
    simp only [List.foldl_cons, List.foldl_nil]
    rw [show locStep initLoc l1 = (⟨some n, false, [], fun _ => none⟩ : LocState) from
      locStep_marker none false [] (fun _ => none) l1 n hl1 hl1r (fun _ => rfl)]
    rw [foldl_locStep_await u1 ⟨some n, false, [], fun _ => none⟩ rfl hu1]
    rw [show locStep ⟨some n, false, [], fun _ => none⟩ r1 =
        (⟨some n, true, [], fun _ => none⟩ : LocState) from
      locStep_raw n false [] (fun _ => none) r1 hr1n hr1]
    rw [show locStep ⟨some n, true, [], fun _ => none⟩ a1 =
        (⟨some n, true, [lineVals a1], fun _ => none⟩ : LocState) from
      locStep_collect_append n [] (fun _ => none) a1 ha1 ha1r ha13 (by simp)]
    rw [show locStep ⟨some n, true, [lineVals a1], fun _ => none⟩ a2 =
        (⟨some n, true, [lineVals a1, lineVals a2], fun _ => none⟩ : LocState) from
      locStep_collect_append n [lineVals a1] (fun _ => none) a2 ha2 ha2r ha23 (by simp)]
    rw [show locStep ⟨some n, true, [lineVals a1, lineVals a2], fun _ => none⟩ a3 =
        (⟨none, false, [],
          fun k => if k = (n : ℤ)
                   then some [lineVals a1, lineVals a2, lineVals a3] else none⟩ : LocState) from
      locStep_collect_complete n [lineVals a1, lineVals a2] (fun _ => none) a3
        ha3 ha3r ha33 rfl]
    rw [show locStep
        ⟨none, false, [],
         fun k => if k = (n : ℤ)
                  then some [lineVals a1, lineVals a2, lineVals a3] else none⟩ l2 =
        (⟨some n, false, [],
          fun k => if k = (n : ℤ)
                   then some [lineVals a1, lineVals a2, lineVals a3] else none⟩ : LocState) from
      locStep_marker none false []
        (fun k => if k = (n : ℤ)
                  then some [lineVals a1, lineVals a2, lineVals a3] else none)
        l2 n hl2 hl2r (fun _ => rfl)]
    rw [foldl_locStep_await u2
      ⟨some n, false, [],
       fun k => if k = (n : ℤ)
                then some [lineVals a1, lineVals a2, lineVals a3] else none⟩ rfl hu2]
    rw [show locStep
        ⟨some n, false, [],
         fun k => if k = (n : ℤ)
                  then some [lineVals a1, lineVals a2, lineVals a3] else none⟩ r2 =
        (⟨some n, true, [],
          fun k => if k = (n : ℤ)
                   then some [lineVals a1, lineVals a2, lineVals a3] else none⟩ : LocState) from
      locStep_raw n false []
        (fun k => if k = (n : ℤ)
                  then some [lineVals a1, lineVals a2, lineVals a3] else none)
        r2 hr2n hr2]
    rw [show locStep
        ⟨some n, true, [],
         fun k => if k = (n : ℤ)
                  then some [lineVals a1, lineVals a2, lineVals a3] else none⟩ b1 =
        (⟨some n, true, [lineVals b1],
          fun k => if k = (n : ℤ)
                   then some [lineVals a1, lineVals a2, lineVals a3] else none⟩ : LocState) from
      locStep_collect_append n []
        (fun k => if k = (n : ℤ)
                  then some [lineVals a1, lineVals a2, lineVals a3] else none)
        b1 hb1 hb1r hb13 (by simp)]
    rw [show locStep
        ⟨some n, true, [lineVals b1],
         fun k => if k = (n : ℤ)
                  then some [lineVals a1, lineVals a2, lineVals a3] else none⟩ b2 =
        (⟨some n, true, [lineVals b1, lineVals b2],
          fun k => if k = (n : ℤ)
                   then some [lineVals a1, lineVals a2, lineVals a3] else none⟩ : LocState) from
      locStep_collect_append n [lineVals b1]
        (fun k => if k = (n : ℤ)
                  then some [lineVals a1, lineVals a2, lineVals a3] else none)
        b2 hb2 hb2r hb23 (by simp)]
    rw [show locStep
        ⟨some n, true, [lineVals b1, lineVals b2],
         fun k => if k = (n : ℤ)
                  then some [lineVals a1, lineVals a2, lineVals a3] else none⟩ b3 =
        (⟨none, false, [],
          fun k => if k = (n : ℤ) then some [lineVals b1, lineVals b2, lineVals b3]
                   else if k = (n : ℤ)
                   then some [lineVals a1, lineVals a2, lineVals a3] else none⟩ : LocState) from
      locStep_collect_complete n [lineVals b1, lineVals b2]
        (fun k => if k = (n : ℤ)
                  then some [lineVals a1, lineVals a2, lineVals a3] else none)
        b3 hb3 hb3r hb33 rfl]
    exact foldl_locStep_idle post _ rfl rfl hpost
  unfold extract_raw_efg_matrices
  rw [hstate]
  exact if_pos rfl

theorem C10_last_complete_block_wins_witness :
    extract_raw_efg_matrices
      ["Nucleus  7H".toList, " Raw EFG matrix".toList,
       "1.0 0.0 0.0".toList, "0.0 1.0 0.0".toList, "0.0 0.0 1.0".toList,
       "Nucleus  7H".toList, " Raw EFG matrix".toList,
       " 1.0 0.0 0.0".toList, " 0.0 2.0 0.0".toList, " 0.0 0.0 -5.0".toList]
      (7 : ℤ) = some [[1, 0, 0], [0, 2, 0], [0, 0, -5]] := by
  have hC10 := C10_last_complete_block_wins
    [] [] [] []
    "Nucleus  7H".toList " Raw EFG matrix".toList
    "Nucleus  7H".toList " Raw EFG matrix".toList
    "1.0 0.0 0.0".toList "0.0 1.0 0.0".toList "0.0 0.0 1.0".toList
    " 1.0 0.0 0.0".toList " 0.0 2.0 0.0".toList " 0.0 0.0 -5.0".toList
    7
    (by decide) (by decide) (by decide) (by decide) (by decide) (by decide)
    (by decide) (by decide) (by decide) (by decide) (by decide) (by decide)
    (by decide) (by decide)
  exact hC10.trans (by decide)

theorem takeWhile_all {p : Char → Bool} : ∀ {d : List Char},
    (∀ c ∈ d, p c = true) → d.takeWhile p = d
  | [], _ => rfl
  | c :: t, h => by
    rw [List.takeWhile_cons, if_pos (h c (by simp))]
    rw [takeWhile_all (fun x hx => h x (by simp [hx]))]

theorem dropWhile_all {p : Char → Bool} : ∀ {d : List Char},
    (∀ c ∈ d, p c = true) → d.dropWhile p = []
  | [], _ => rfl
  | c :: t, h => by
    rw [List.dropWhile_cons, if_pos (h c (by simp))]
    exact dropWhile_all (fun x hx => h x (by simp [hx]))

theorem takeWhile_all_append {p : Char → Bool} {x : Char} {r : List Char} :
    ∀ {d : List Char}, (∀ c ∈ d, p c = true) → p x = false →
    ((d ++ x :: r).takeWhile p) = d
  | [], _, hx => by simp [List.takeWhile_cons, hx]
  | c :: t, h, hx => by
    rw [List.cons_append, List.takeWhile_cons, if_pos (h c (by simp))]
    rw [takeWhile_all_append (fun y hy => h y (by simp [hy])) hx]

theorem dropWhile_all_append {p : Char → Bool} {x : Char} {r : List Char} :
    ∀ {d : List Char}, (∀ c ∈ d, p c = true) → p x = false →
    ((d ++ x :: r).dropWhile p) = x :: r
  | [], _, hx => by simp [List.dropWhile_cons, hx]
  | c :: t, h, hx => by
    rw [List.cons_append, List.dropWhile_cons, if_pos (h c (by simp))]
    exact dropWhile_all_append (fun y hy => h y (by simp [hy])) hx




/-- On a token of the exact shape `\d+.\d+` (no sign), `parseFloatQ`
succeeds. -/
theorem parseFloatQ_isSome_core {d1 d2 : List Char}
    (hd1ne : d1 ≠ []) (hd1dig : ∀ c ∈ d1, c.isDigit = true)
    (hd2ne : d2 ≠ []) (hd2dig : ∀ c ∈ d2, c.isDigit = true) :
    (parseFloatQ (d1 ++ '.' :: d2)).isSome = true := by
  have hhead : ¬((d1 ++ '.' :: d2).head? = some '-') := by
    cases hd : d1 with
    | nil => exact absurd hd hd1ne
    | cons a t =>
      have ha : a.isDigit = true := hd1dig a (by rw [hd]; exact List.mem_cons_self a t)
      simp only [List.cons_append, List.head?_cons, Option.some.injEq]
      intro hav
      rw [hav] at ha
      exact absurd ha (by decide)
  unfold parseFloatQ
  dsimp only
  rw [decide_eq_false hhead]
  simp only [Bool.false_eq_true, if_false]
  rw [takeWhile_all_append hd1dig (by decide),
    dropWhile_all_append hd1dig (by decide)]
  simp only [List.head?_cons, List.tail_cons]
  rw [takeWhile_all hd2dig]
  rw [if_neg (by simp [hd1ne, hd2ne, dropWhile_all hd2dig])]
  rfl

/-- On a token of the exact shape `-\d+.\d+`, `parseFloatQ` succeeds. -/
theorem parseFloatQ_isSome_neg {d1 d2 : List Char}
    (hd1ne : d1 ≠ []) (hd1dig : ∀ c ∈ d1, c.isDigit = true)
    (hd2ne : d2 ≠ []) (hd2dig : ∀ c ∈ d2, c.isDigit = true) :
    (parseFloatQ ('-' :: (d1 ++ '.' :: d2))).isSome = true := by
  unfold parseFloatQ
  dsimp only
  rw [decide_eq_true (show ('-' :: (d1 ++ '.' :: d2)).head? = some '-' from rfl)]
  simp only [eq_self_iff_true, if_true, List.tail_cons]
  rw [takeWhile_all_append hd1dig (by decide),
    dropWhile_all_append hd1dig (by decide)]
  simp only [List.head?_cons, List.tail_cons]
  rw [takeWhile_all hd2dig]
  rw [if_neg (by simp [hd1ne, hd2ne, dropWhile_all hd2dig])]
  rfl

theorem matchFloatCore_token_parses {sgn r0 : List Char} {p : List Char × List Char}
    (hsgn : sgn = [] ∨ sgn = ['-'])
    (h : matchFloatCore sgn r0 = some p) : (parseFloatQ p.1).isSome = true := by
  simp only [matchFloatCore] at h
  split at h
  · exact absurd h (by simp)
  · rename_i hcond
    simp only [Bool.or_eq_true, decide_eq_true_eq, not_or, not_not,
      List.isEmpty_iff] at hcond
    obtain ⟨⟨hd1ne, hdot⟩, hd2ne⟩ := hcond
    injection h with h'
    have hp1 : p.1 = sgn ++ (r0.takeWhile Char.isDigit ++
        ('.' :: (r0.dropWhile Char.isDigit).tail.takeWhile Char.isDigit)) := by
      rw [← h']
      simp [List.append_assoc]
    have hd1dig : ∀ c ∈ r0.takeWhile Char.isDigit, c.isDigit = true :=
      fun c hc => List.mem_takeWhile_imp hc
    have hd2dig : ∀ c ∈ (r0.dropWhile Char.isDigit).tail.takeWhile Char.isDigit,
        c.isDigit = true := fun c hc => List.mem_takeWhile_imp hc
    rcases hsgn with hs | hs
    · rw [hp1, hs, List.nil_append]
      exact parseFloatQ_isSome_core hd1ne hd1dig hd2ne hd2dig
    · rw [hp1, hs]
      exact parseFloatQ_isSome_neg hd1ne hd1dig hd2ne hd2dig

theorem matchFloatAt_token_parses {s : List Char} {p : List Char × List Char}
    (h : matchFloatAt s = some p) : (parseFloatQ p.1).isSome = true := by
  unfold matchFloatAt at h
  split at h
  · exact matchFloatCore_token_parses (Or.inr rfl) h
  · exact matchFloatCore_token_parses (Or.inl rfl) h

theorem findFloatTokensF_parses : ∀ (fuel : Nat) (s tok : List Char),
    tok ∈ findFloatTokensF fuel s → (parseFloatQ tok).isSome = true := by
  intro fuel
  induction fuel with
  | zero =>
    intro s tok h
    simp [findFloatTokensF] at h
  | succ fuel ih =>
    intro s tok h
    cases s with
    | nil => simp [findFloatTokensF] at h
    | cons c t =>
      have heq : findFloatTokensF (fuel + 1) (c :: t) =
          (match matchFloatAt (c :: t) with
           | some p => p.1 :: findFloatTokensF fuel p.2
           | none => findFloatTokensF fuel t) := rfl
      rw [heq] at h
      cases hm : matchFloatAt (c :: t) with
      | some p =>
        rw [hm] at h
        dsimp only at h
        rcases List.mem_cons.mp h with h1 | h1
        · rw [h1]
          exact matchFloatAt_token_parses hm
        · exact ih p.2 tok h1
      | none =>
        rw [hm] at h
        exact ih t tok h

/-- C6 (confirmed): the Block Locator is a total fold over the file's lines
(it always terminates and returns a mapping, never raising); inside an open
tensor section a line whose float-token count differs from 3 is skipped
without any effect on the state; and every token the float regex matches
parses successfully, so `float()` can never fail. -/
theorem C6_never_raises :
    (∀ content : List (List Char),
      extract_raw_efg_matrices content = (content.foldl locStep initLoc).table) ∧
    (∀ (st : LocState) (line : List Char),
      searchNucleus line = none → hasSub rawMarkerLit line = false →
      (findFloatTokens line).length ≠ 3 → locStep st line = st) ∧
    (∀ line tok : List Char,
      tok ∈ findFloatTokens line → (parseFloatQ tok).isSome = true) :=
  ⟨fun _ => rfl,
   fun st line hn hr h3 => locStep_skip st line hn hr h3,
   fun line tok h => findFloatTokensF_parses line.length line tok h⟩

theorem C6_never_raises_witness :
    locStep initLoc ("  some malformed junk 1.2 3".toList) = initLoc ∧
    (parseFloatQ ("-12.75".toList)).isSome = true :=
  ⟨C6_never_raises.2.1 initLoc ("  some malformed junk 1.2 3".toList)
      (by decide) (by decide) (by decide),
   C6_never_raises.2.2 (" x -12.75 END".toList) ("-12.75".toList) (by decide)⟩

theorem table_insert_isSome {tb : ℤ → Option (List (List ℚ))} {c : Nat}
    {M : List (List ℚ)} {k : ℤ}
    (h : ((fun k' => if k' = (c : ℤ) then some M else tb k') k).isSome = true) :
    k = (c : ℤ) ∨ (tb k).isSome = true := by
  by_cases hk : k = (c : ℤ)
  · exact Or.inl hk
  · right
    dsimp only at h
    rwa [if_neg hk] at h

/-- Single-step provenance: the machine's invariant (an open section always
has a current nucleus) is preserved, a key can enter the table only from
the pre-existing table, the pre-existing current nucleus, or a nucleus
marker on the processed line, and the current nucleus can only come from
the old one or a marker on the line. -/
theorem locStep_provenance (st : LocState) (line : List Char)
    (hinv : st.efgSection = true → st.current.isSome = true) :
    ((locStep st line).efgSection = true → (locStep st line).current.isSome = true) ∧
    (∀ k : ℤ, ((locStep st line).table k).isSome = true →
      (st.table k).isSome = true ∨
      (∃ n : ℕ, st.current = some n ∧ (n : ℤ) = k) ∨
      (∃ n : ℕ, searchNucleus line = some n ∧ (n : ℤ) = k)) ∧
    (∀ n : ℕ, (locStep st line).current = some n →
      st.current = some n ∨ searchNucleus line = some n) := by
  obtain ⟨cur, sec, ml, tb⟩ := st
  unfold locStep
  cases hs : searchNucleus line with
  | some n =>
    cases sec with
    | true =>
      dsimp only
      rw [if_pos rfl]
      by_cases hr : hasSub rawMarkerLit line = true
      · rw [if_pos (by simp [hr])]
        refine ⟨fun _ => rfl, fun k hk => Or.inl hk, fun n' hn' => Or.inr ?_⟩
        exact congrArg some (Option.some.inj hn')
      · rw [if_neg (by simp [hr])]
        rw [if_neg (by simp)]
        refine ⟨by simp, fun k hk => Or.inl hk, fun n' hn' => Or.inr ?_⟩
        exact congrArg some (Option.some.inj hn')
    | false =>
      dsimp only
      simp only [Bool.false_eq_true, if_false]
      by_cases hr : hasSub rawMarkerLit line = true
      · rw [if_pos (by simp [hr])]
        refine ⟨fun _ => rfl, fun k hk => Or.inl hk, fun n' hn' => Or.inr ?_⟩
        exact congrArg some (Option.some.inj hn')
      · rw [if_neg (by simp [hr])]
        rw [if_neg (by simp)]
        refine ⟨by simp, fun k hk => Or.inl hk, fun n' hn' => Or.inr ?_⟩
        exact congrArg some (Option.some.inj hn')
  | none =>
    dsimp only
    by_cases hr : (Option.isSome cur && hasSub rawMarkerLit line) = true
    · rw [if_pos hr]
      refine ⟨fun _ => by rw [Bool.and_eq_true] at hr; exact hr.1, fun k hk => Or.inl hk,
              fun n' hn' => Or.inl hn'⟩
    · rw [if_neg hr]
      by_cases hc : (sec && decide (ml.length < 3)) = true
      · rw [if_pos hc]
        have hsec : sec = true := by rw [Bool.and_eq_true] at hc; exact hc.1
        have hcur : cur.isSome = true := hinv hsec
        obtain ⟨c, hcval⟩ := Option.isSome_iff_exists.mp hcur
        by_cases hml : (if (findFloatTokens line).length = 3
            then ml ++ [lineVals line] else ml).length = 3
        · rw [if_pos hml]
          refine ⟨by simp, fun k hk => ?_, fun n' hn' => by simp at hn'⟩
          rcases table_insert_isSome (c := cur.getD 0) hk with hkey | hold
          · refine Or.inr (Or.inl ⟨cur.getD 0, ?_, hkey.symm ▸ rfl⟩)
            rw [hcval]
            rfl
          · exact Or.inl hold
        · rw [if_neg hml]
          refine ⟨fun _ => hcur, fun k hk => Or.inl hk, fun n' hn' => Or.inl hn'⟩
      · rw [if_neg hc]
        exact ⟨hinv, fun k hk => Or.inl hk, fun n' hn' => Or.inl hn'⟩

/-- Fold-level provenance: every key of the final table traces back to the
initial table, the initial current nucleus, or a nucleus-marker line of the
processed input. -/
theorem foldl_locStep_provenance : ∀ (L : List (List Char)) (st : LocState),
    (st.efgSection = true → st.current.isSome = true) →
    ((List.foldl locStep st L).efgSection = true →
       (List.foldl locStep st L).current.isSome = true) ∧
    (∀ k : ℤ, ((List.foldl locStep st L).table k).isSome = true →
      (st.table k).isSome = true ∨
      (∃ n : ℕ, st.current = some n ∧ (n : ℤ) = k) ∨
      (∃ l ∈ L, ∃ n : ℕ, searchNucleus l = some n ∧ (n : ℤ) = k)) ∧
    (∀ n : ℕ, (List.foldl locStep st L).current = some n →
      st.current = some n ∨ ∃ l ∈ L, searchNucleus l = some n) := by
  intro L
  induction L with
  | nil =>
    intro st hinv
    exact ⟨hinv, fun k hk => Or.inl hk, fun n hn => Or.inl hn⟩
  | cons l L ih =>
    intro st hinv
    obtain ⟨sinv, stab, scur⟩ := locStep_provenance st l hinv
    obtain ⟨finv, ftab, fcur⟩ := ih (locStep st l) sinv
    rw [List.foldl_cons]
    refine ⟨finv, ?_, ?_⟩
    · intro k hk
      rcases ftab k hk with h1 | h2 | h3
      · rcases stab k h1 with g1 | g2 | g3
        · exact Or.inl g1
        · exact Or.inr (Or.inl g2)
        · obtain ⟨n, hn, hnk⟩ := g3
          exact Or.inr (Or.inr ⟨l, by simp, n, hn, hnk⟩)
      · obtain ⟨n, hcur, hnk⟩ := h2
        rcases scur n hcur with g1 | g2
        · exact Or.inr (Or.inl ⟨n, g1, hnk⟩)
        · exact Or.inr (Or.inr ⟨l, by simp, n, g2, hnk⟩)
      · obtain ⟨l', hl', n, hn, hnk⟩ := h3
        exact Or.inr (Or.inr ⟨l', by simp [hl'], n, hn, hnk⟩)
    · intro n hn
      rcases fcur n hn with h1 | h2
      · rcases scur n h1 with g1 | g2
        · exact Or.inl g1
        · exact Or.inr ⟨l, by simp, g2⟩
      · obtain ⟨l', hl', hsl⟩ := h2
        exact Or.inr ⟨l', by simp [hl'], hsl⟩

/-- A successful anchored nucleus match decomposes the line into the
literal `Nucleus`, a nonempty whitespace run, a nonempty digit run whose
value is the reported index, and the hydrogen symbol `H`. -/
theorem matchNucleusAt_shape {s : List Char} {n : Nat}
    (h : matchNucleusAt s = some n) :
    ∃ ws ds r : List Char,
      s = nucleusLit ++ ws ++ ds ++ 'H' :: r ∧
      ws ≠ [] ∧ (∀ c ∈ ws, isPyWs c = true) ∧
      ds ≠ [] ∧ (∀ c ∈ ds, c.isDigit = true) ∧
      digitsToNat ds = n := by
  unfold matchNucleusAt at h
  split at h
  · rename_i hpre
    dsimp only at h
    split at h
    · exact absurd h (by simp)
    · rename_i hcond
      simp only [Bool.or_eq_true, decide_eq_true_eq, not_or, not_not,
        List.isEmpty_iff] at hcond
      obtain ⟨⟨hwsne, hdsne⟩, hH⟩ := hcond
      have hpre' : nucleusLit <+: s := by
        rwa [← List.isPrefixOf_iff_prefix]
      obtain ⟨t, ht⟩ := hpre'
      have hr0 : s.drop nucleusLit.length = t := by
        rw [← ht, List.drop_left]
      rw [hr0] at h hwsne hdsne hH
      cases hr2 : (t.dropWhile isPyWs).dropWhile Char.isDigit with
      | nil => rw [hr2] at hH; simp at hH
      | cons x rest =>
        rw [hr2] at hH
        simp only [List.head?_cons, Option.some.injEq] at hH
        have e1 : t = t.takeWhile isPyWs ++ t.dropWhile isPyWs :=
          (List.takeWhile_append_dropWhile isPyWs t).symm
        have e2 := congrArg (fun z => t.takeWhile isPyWs ++ z)
          (List.takeWhile_append_dropWhile Char.isDigit (t.dropWhile isPyWs)).symm
        have e3 := congrArg
          (fun z => t.takeWhile isPyWs ++
            ((t.dropWhile isPyWs).takeWhile Char.isDigit ++ z)) hr2
        have et := (e1.trans e2).trans e3
        refine ⟨t.takeWhile isPyWs, (t.dropWhile isPyWs).takeWhile Char.isDigit,
          rest, ?_, hwsne, fun c hc => List.mem_takeWhile_imp hc, hdsne,
          fun c hc => List.mem_takeWhile_imp hc, ?_⟩
        · exact (ht.symm.trans (congrArg (fun z => nucleusLit ++ z) et)).trans
            (by simp [List.append_assoc, hH])
        · exact Option.some.inj h
  · exact absurd h (by simp)

/-- The leftmost-search version of `matchNucleusAt_shape`: the line
contains the marker somewhere. -/
theorem searchNucleus_shape : ∀ {s : List Char} {n : Nat},
    searchNucleus s = some n →
    ∃ p ws ds r : List Char,
      s = p ++ nucleusLit ++ ws ++ ds ++ 'H' :: r ∧
      ws ≠ [] ∧ (∀ c ∈ ws, isPyWs c = true) ∧
      ds ≠ [] ∧ (∀ c ∈ ds, c.isDigit = true) ∧
      digitsToNat ds = n := by
  intro s
  induction s with
  | nil =>
    intro n h
    simp [searchNucleus] at h
  | cons c t ih =>
    intro n h
    have heq : searchNucleus (c :: t) =
        (match matchNucleusAt (c :: t) with
         | some m => some m
         | none => searchNucleus t) := rfl
    rw [heq] at h
    cases hm : matchNucleusAt (c :: t) with
    | some m =>
      rw [hm] at h
      dsimp only at h
      injection h with hmn
      obtain ⟨ws, ds, r, hdec, hrest⟩ := matchNucleusAt_shape (hmn ▸ hm)
      exact ⟨[], ws, ds, r, by rw [List.nil_append]; exact hdec, hrest⟩
    | none =>
      rw [hm] at h
      dsimp only at h
      obtain ⟨p, ws, ds, r, hdec, hrest⟩ := ih h
      exact ⟨c :: p, ws, ds, r, by rw [hdec]; simp, hrest⟩

/-- C7 (code_bug): the marker regex `Nucleus\s+(\d+)H` does not anchor the
element symbol after the `H`, so a marker line naming a non-hydrogen
nucleus whose symbol merely begins with `H` — helium `He`, mercury `Hg`,
hafnium `Hf`, holmium `Ho` — matches as well, sets the current nucleus
index, and contributes an entry to the mapping.  Concretely: the helium
line `Nucleus  3He` matches with index 3 and the mercury line
`Nucleus  12Hg` with index 12; on a file whose only marker line is the
helium one (every other line fails the regex), the Block Locator stores
the following complete block under key 3.  This refutes the claim that
marker lines naming non-hydrogen nuclei never set the current nucleus
index and never contribute an entry. -/
theorem C7_non_hydrogen_marker_contributes :
    searchNucleus ("Nucleus  3He".toList) = some 3 ∧
    searchNucleus ("Nucleus  12Hg".toList) = some 12 ∧
    (∀ l ∈ ["Nucleus  3He".toList, " Raw EFG matrix".toList,
            "1.0 0.0 0.0".toList, "0.0 2.0 0.0".toList, "0.0 0.0 -5.0".toList],
      l ≠ "Nucleus  3He".toList → searchNucleus l = none) ∧
    extract_raw_efg_matrices
      ["Nucleus  3He".toList, " Raw EFG matrix".toList,
       "1.0 0.0 0.0".toList, "0.0 2.0 0.0".toList, "0.0 0.0 -5.0".toList]
      (3 : ℤ) = some [[1, 0, 0], [0, 2, 0], [0, 0, -5]] := by
  refine ⟨by decide, by decide, by decide, by decide⟩

theorem setHydrideCells_length (cols : List String) (inRow : List (Option String))
    (tbl : ℤ → Option (List (List ℚ))) (eigh : Mat3 ℚ → Eigh ℚ) (fmt : ℚ → String) :
    ∀ (cs : List String) (pos : Nat) (acc : List (Option String)),
      (setHydrideCells cols inRow tbl eigh fmt pos cs acc).length = acc.length := by
  intro cs
  induction cs with
  | nil => intro pos acc; rfl
  | cons c cs ih =>
    intro pos acc
    unfold setHydrideCells
    cases getColCell cols inRow c with
    | none => exact ih (pos + 1) acc
    | some s => rw [ih (pos + 1) _, List.length_set]

theorem setHydrideCells_getD_lt (cols : List String) (inRow : List (Option String))
    (tbl : ℤ → Option (List (List ℚ))) (eigh : Mat3 ℚ → Eigh ℚ) (fmt : ℚ → String) :
    ∀ (cs : List String) (pos : Nat) (acc : List (Option String)) (j : Nat),
      j < pos →
      (setHydrideCells cols inRow tbl eigh fmt pos cs acc).getD j none =
        acc.getD j none := by
  intro cs
  induction cs with
  | nil => intro pos acc j _; rfl
  | cons c cs ih =>
    intro pos acc j hj
    unfold setHydrideCells
    cases getColCell cols inRow c with
    | none => exact ih (pos + 1) acc j (by omega)
    | some s =>
      rw [ih (pos + 1) _ j (by omega)]
      rw [List.getD_eq_getElem?_getD, List.getD_eq_getElem?_getD,
        List.getElem?_set_ne (by omega)]

theorem setHydrideCells_getD_at (cols : List String) (inRow : List (Option String))
    (tbl : ℤ → Option (List (List ℚ))) (eigh : Mat3 ℚ → Eigh ℚ) (fmt : ℚ → String) :
    ∀ (cs : List String) (pos : Nat) (acc : List (Option String)) (j : Nat),
      j < cs.length → pos + cs.length ≤ acc.length →
      (setHydrideCells cols inRow tbl eigh fmt pos cs acc).getD (pos + j) none =
        (match getColCell cols inRow (cs.getD j "") with
         | none => acc.getD (pos + j) none
         | some s => some (transformCell tbl eigh fmt s)) := by
  intro cs
  induction cs with
  | nil => intro pos acc j hj _; simp at hj
  | cons c cs ih =>
    intro pos acc j hj hbound
    unfold setHydrideCells
    cases j with
    | zero =>
      cases hcell : getColCell cols inRow c with
      | none =>
        dsimp only
        simp only [Nat.add_zero, List.getD_cons_zero, hcell]
        rw [setHydrideCells_getD_lt cols inRow tbl eigh fmt cs (pos + 1) acc pos
          (by omega)]
      | some s =>
        dsimp only
        simp only [Nat.add_zero, List.getD_cons_zero, hcell]
        rw [setHydrideCells_getD_lt cols inRow tbl eigh fmt cs (pos + 1) _ pos
          (by omega)]
        rw [List.getD_eq_getElem?_getD,
          List.getElem?_set_eq_of_lt _ (by simp at hbound ⊢; omega)]
        rfl
    | succ j' =>
      have hstep : pos + (j' + 1) = (pos + 1) + j' := by omega
      rw [hstep]
      simp only [List.getD_cons_succ]
      cases hcell : getColCell cols inRow c with
      | none =>
        dsimp only
        rw [ih (pos + 1) acc j' (by simp at hj; omega) (by simp at hbound; omega)]
      | some s =>
        dsimp only
        rw [ih (pos + 1) _ j' (by simp at hj; omega)
          (by rw [List.length_set]; simp at hbound; omega)]
        have hacc : (acc.set pos (some (transformCell tbl eigh fmt s))).getD
            ((pos + 1) + j') none = acc.getD ((pos + 1) + j') none := by
          rw [List.getD_eq_getElem?_getD, List.getD_eq_getElem?_getD,
            List.getElem?_set_ne (by omega)]
        cases getColCell cols inRow (cs.getD j' "") with
        | none => rw [hacc]
        | some s2 => rfl

/-- C9 (confirmed): for input tables whose hydride-cell index tokens all
parse as integers — the condition under which Python's `int` raises no
`ValueError` and the driver runs to completion — the orientations driver
emits exactly one output row per input row; the output columns are the
original ones followed by one fresh `..._orientations` column per hydride
column; every original cell is left unchanged; each processed hydride cell
is filled with the per-cell transformation of its input cell; and that
transformation preserves the two-level delimiter structure — the cell
`1,2;3` resolves to the three per-index results joined by `,` within the
group and `;` between groups.  The hypothesis `hwf` quantifies over
exactly the tokens the cell body feeds to `int`: the `,`-tokens of each
nonempty group of each hydride cell, under the detected group separator;
the last conjunct confirms that under it the total wrapper `pyInt` never
hits its fallback on any such token, so the collapsed `ValueError` path is
unreachable on the tables the theorem covers. -/
theorem C9_row_frame_and_delimiters (cols : List String)
    (rows : List (List (Option String)))
    (fileFound : String → Bool) (fileLines : String → List (List Char))
    (eigh : Mat3 ℚ → Eigh ℚ) (fmt : ℚ → String)
    (hr : ∀ r ∈ rows, r.length = cols.length)
    (hwf : ∀ r ∈ rows, ∀ c ∈ hydrideColsOf cols, ∀ s : String,
      getColCell cols r c = some s →
      ∀ e ∈ (pySplit (if containsChar ';' s then ';' else ',') s).filter
          (fun e => e ≠ ""),
      ∀ t ∈ pySplit ',' e, (pyIntOpt t).isSome = true) :
    ((process_hydride_orientations_csv cols rows fileFound fileLines eigh fmt).2.length
        = rows.length) ∧
    ((process_hydride_orientations_csv cols rows fileFound fileLines eigh fmt).1
        = cols ++ (hydrideColsOf cols).map (fun c => c ++ "_orientations")) ∧
    (∀ k, k < rows.length → ∀ j, j < cols.length →
      ((process_hydride_orientations_csv cols rows fileFound fileLines eigh
          fmt).2.getD k []).getD j none = (rows.getD k []).getD j none) ∧
    (∀ k, k < rows.length → ∀ f : String,
      getColCell cols (rows.getD k []) "Filename" = some f →
      fileFound (orcaFileName f) = true →
      ∀ j, j < (hydrideColsOf cols).length → ∀ s : String,
      getColCell cols (rows.getD k []) ((hydrideColsOf cols).getD j "") = some s →
      ((process_hydride_orientations_csv cols rows fileFound fileLines eigh
          fmt).2.getD k []).getD (cols.length + j) none =
        some (transformCell (extract_raw_efg_matrices (fileLines (orcaFileName f)))
          eigh fmt s)) ∧
    (∀ tbl : ℤ → Option (List (List ℚ)),
      transformCell tbl eigh fmt "1,2;3" =
        orientPiece tbl eigh fmt 1 ++ "," ++ orientPiece tbl eigh fmt 2 ++ ";" ++
        orientPiece tbl eigh fmt 3) ∧
    (∀ r ∈ rows, ∀ c ∈ hydrideColsOf cols, ∀ s : String,
      getColCell cols r c = some s →
      ∀ e ∈ (pySplit (if containsChar ';' s then ';' else ',') s).filter
          (fun e => e ≠ ""),
      ∀ t ∈ pySplit ',' e, pyIntOpt t = some (pyInt t)) := by
  have hmap : ∀ k, k < rows.length →
      (process_hydride_orientations_csv cols rows fileFound fileLines eigh
        fmt).2.getD k [] =
      processOneRow cols (hydrideColsOf cols) fileFound fileLines eigh fmt
        (rows.getD k [])
        ((rows.getD k []) ++ (hydrideColsOf cols).map (fun _ => some "")) := by
    intro k hk
    show (rows.map (fun r =>
      processOneRow cols (hydrideColsOf cols) fileFound fileLines eigh fmt r
        (r ++ (hydrideColsOf cols).map (fun _ => some "")))).getD k [] = _
    rw [List.getD_eq_getElem?_getD, List.getElem?_map, List.getD_eq_getElem?_getD,
      List.getElem?_eq_getElem hk]
    rfl
  have hlen : ∀ k, k < rows.length → (rows.getD k []).length = cols.length := by
    intro k hk
    refine hr _ ?_
    have : rows.getD k [] = rows[k] := by
      rw [List.getD_eq_getElem?_getD, List.getElem?_eq_getElem hk]
      rfl
    rw [this]
    exact List.getElem_mem _
  refine ⟨by simp [process_hydride_orientations_csv], rfl, ?_, ?_, fun tbl => rfl, ?_⟩
  · intro k hk j hj
    rw [hmap k hk]
    unfold processOneRow
    have happ : ((rows.getD k []) ++
        (hydrideColsOf cols).map (fun _ => some "")).getD j none =
        (rows.getD k []).getD j none := by
      rw [List.getD_append]
      rw [hlen k hk]
      exact hj
    cases getColCell cols (rows.getD k []) "Filename" with
    | none => exact happ
    | some f =>
      dsimp only
      by_cases hf : fileFound (orcaFileName f) = true
      · rw [if_pos hf]
        rw [setHydrideCells_getD_lt _ _ _ _ _ _ _ _ j (by omega)]
        exact happ
      · rw [if_neg hf]
        exact happ
  · intro k hk f hfile hfound j hj s hcell
    rw [hmap k hk, processOneRow, hfile]
    dsimp only
    rw [if_pos hfound]
    rw [setHydrideCells_getD_at _ _ _ _ _ _ cols.length _ j hj
      (by rw [List.length_append, List.length_map, hlen k hk])]
    rw [hcell]
  · intro r h c hc s hs e he t ht
    have h1 := hwf r h c hc s hs e he t ht
    cases ho : pyIntOpt t with
    | none => rw [ho] at h1; simp at h1
    | some v =>
      unfold pyInt
      rw [ho]
      rfl

theorem C9_row_frame_and_delimiters_witness :
    (process_hydride_orientations_csv ["Filename", "Hydrides - mu1H"]
      [[some "a.xyz", some "1,2;3"]] (fun _ => true) (fun _ => [])
      (fun _ => eighDiagExample) (fun _ => "v")).2.length = 1 ∧
    (process_hydride_orientations_csv ["Filename", "Hydrides - mu1H"]
      [[some "a.xyz", some "1,2;3"]] (fun _ => true) (fun _ => [])
      (fun _ => eighDiagExample) (fun _ => "v")).1 =
      ["Filename", "Hydrides - mu1H", "Hydrides - mu1H_orientations"] :=
  ⟨(C9_row_frame_and_delimiters ["Filename", "Hydrides - mu1H"]
      [[some "a.xyz", some "1,2;3"]] (fun _ => true) (fun _ => [])
      (fun _ => eighDiagExample) (fun _ => "v")
      (by intro r h; rw [List.mem_singleton] at h; subst h; rfl)
      (by
        intro r h c hc s hs
        rw [List.mem_singleton] at h
        subst h
        rw [show hydrideColsOf ["Filename", "Hydrides - mu1H"]
          = ["Hydrides - mu1H"] by decide, List.mem_singleton] at hc
        subst hc
        rw [show getColCell ["Filename", "Hydrides - mu1H"]
          [some "a.xyz", some "1,2;3"] "Hydrides - mu1H"
          = some "1,2;3" by decide] at hs
        injection hs with h2
        subst h2
        decide)).1,
   (C9_row_frame_and_delimiters ["Filename", "Hydrides - mu1H"]
      [[some "a.xyz", some "1,2;3"]] (fun _ => true) (fun _ => [])
      (fun _ => eighDiagExample) (fun _ => "v")
      (by intro r h; rw [List.mem_singleton] at h; subst h; rfl)
      (by
        intro r h c hc s hs
        rw [List.mem_singleton] at h
        subst h
        rw [show hydrideColsOf ["Filename", "Hydrides - mu1H"]
          = ["Hydrides - mu1H"] by decide, List.mem_singleton] at hc
        subst hc
        rw [show getColCell ["Filename", "Hydrides - mu1H"]
          [some "a.xyz", some "1,2;3"] "Hydrides - mu1H"
          = some "1,2;3" by decide] at hs
        injection hs with h2
        subst h2
        decide)).2.1⟩
